import Mathlib

/-!
Shallow embedding of the order-block detection engine of
`src/stock_ob_detector/detector.py` and `src/stock_ob_detector/models.py`
(package rooted at `src/` inside the repository).

Prices are rationals (the Python code uses floats but performs only
ring operations and comparisons; all inputs of interest are exact).
Timestamps are integers standing for `datetime` values ordered by time
(Python `datetime` objects are never falsy, so `x or y` on an optional
timestamp is `Option.getD`).

Python object aliasing: `detected_order_blocks` is the permanent, authoritative
store; the two active containers hold *positions into that list*, so that
setting `mitigated = True` through a container reference is visible in the
permanent record, exactly as mutation of a shared object is in Python.
-/

namespace StockOB

/-- `models.Bias`: BULLISH = 1, BEARISH = -1. -/
inductive Bias where
  | BULLISH
  | BEARISH
deriving DecidableEq, Repr

/-- Integer value of a bias, as in the Python `Enum`. -/
def Bias.value : Bias → Int
  | .BULLISH => 1
  | .BEARISH => -1

/-- `models.Bar`: one OHLCV bar. -/
structure Bar where
  timestamp : Int
  open_price : Rat
  high : Rat
  low : Rat
  close : Rat
  volume : Rat
deriving DecidableEq, Repr

/-- Dummy bar used as the (unreachable) default of total lookups. -/
def dBar : Bar := ⟨0, 0, 0, 0, 0, 0⟩

/-- `models.Pivot`. -/
structure Pivot where
  current_level : Option Rat
  last_level : Option Rat
  crossed : Bool
  bar_time : Option Int
  bar_index : Option Nat
deriving DecidableEq, Repr

/-- A freshly constructed pivot (all dataclass defaults). -/
def Pivot.init : Pivot := ⟨none, none, false, none, none⟩

/-- `models.Trend`. -/
structure Trend where
  bias : Int
deriving DecidableEq, Repr

/-- `models.OrderBlock`. -/
structure OrderBlock where
  high : Rat
  low : Rat
  start_time : Int
  created_time : Int
  pivot_time : Int
  bias : Bias
  internal : Bool
  mitigated : Bool
deriving DecidableEq, Repr

/-- Dummy order block used as the (unreachable) default of total lookups. -/
def dOB : OrderBlock := ⟨0, 0, 0, 0, 0, .BULLISH, false, false⟩

/-- The detector state (`OrderBlockDetector.__init__` fields).
The two active containers hold indices into `detected_order_blocks`. -/
structure Detector where
  swing_length : Nat
  internal_length : Nat
  atr_period : Nat
  max_order_blocks : Nat
  bars : List Bar
  parsed_highs : List Rat
  parsed_lows : List Rat
  atr_window : List Rat
  legs : Nat → Int
  swing_high : Pivot
  swing_low : Pivot
  internal_high : Pivot
  internal_low : Pivot
  swing_trend : Trend
  internal_trend : Trend
  internal_order_blocks : List Nat
  swing_order_blocks : List Nat
  detected_order_blocks : List OrderBlock

/-- The state a successfully constructed detector starts in. -/
def initialDetector (swing_length internal_length atr_period max_order_blocks : Nat) :
    Detector :=
  { swing_length := swing_length
    internal_length := internal_length
    atr_period := atr_period
    max_order_blocks := max_order_blocks
    bars := []
    parsed_highs := []
    parsed_lows := []
    atr_window := []
    legs := fun _ => 0
    swing_high := Pivot.init
    swing_low := Pivot.init
    internal_high := Pivot.init
    internal_low := Pivot.init
    swing_trend := ⟨0⟩
    internal_trend := ⟨0⟩
    internal_order_blocks := []
    swing_order_blocks := []
    detected_order_blocks := [] }

/-- `OrderBlockDetector.__init__`: raises `ValueError` when a structure
length is non-positive, otherwise yields the initial state. -/
def mkOrderBlockDetector (swing_length internal_length : Int)
    (atr_period max_order_blocks : Nat) : Except String Detector :=
  if swing_length ≤ 0 ∨ internal_length ≤ 0 then
    .error "Structure lengths must be positive"
  else
    .ok (initialDetector swing_length.toNat internal_length.toNat
      atr_period max_order_blocks)

/-- Keep the `n` most recent elements (the behaviour of a
`deque(maxlen = n)` after appends). -/
def takeLast (n : Nat) (l : List Rat) : List Rat := l.drop (l.length - n)

/-- Python `max` of a non-empty list (junk value 0 on the empty list,
which every call site guards against). -/
def listMax : List Rat → Rat
  | [] => 0
  | x :: xs => xs.foldl max x

/-- Python `min` of a non-empty list (junk value 0 on the empty list). -/
def listMin : List Rat → Rat
  | [] => 0
  | x :: xs => xs.foldl min x

/-- Python `list.index`: first index of `v` (junk value `l.length` when
absent; every call site passes a member). -/
def indexOfQ (l : List Rat) (v : Rat) : Nat :=
  match l with
  | [] => 0
  | x :: xs => if x = v then 0 else indexOfQ xs v + 1

/-- `OrderBlockDetector._true_range`. -/
def true_range (bar : Bar) (prev_bar : Option Bar) : Rat :=
  match prev_bar with
  | none => bar.high - bar.low
  | some prev =>
      max (bar.high - bar.low)
        (max |bar.high - prev.close| |bar.low - prev.close|)

/-- `OrderBlockDetector._average`: `None` on the empty window. -/
def average (values : List Rat) : Option Rat :=
  if values.length = 0 then none else some (values.sum / values.length)

/-- `OrderBlockDetector._append_bar`: ingest one bar, update the true-range
window and the parsed extreme arrays. `atr if atr else bar.high - bar.low`
is falsy exactly on `None` and `0.0`. -/
def appendBar (d : Detector) (bar : Bar) : Detector :=
  let prev_bar := d.bars.getLast?
  let tr := true_range bar prev_bar
  let atr_window := takeLast d.atr_period (d.atr_window ++ [tr])
  let atr := average atr_window
  let volatility_threshold :=
    match atr with
    | some a => if a = 0 then bar.high - bar.low else a
    | none => bar.high - bar.low
  let high_volatility : Bool := decide (bar.high - bar.low ≥ 2 * volatility_threshold)
  let parsed_high := if high_volatility then bar.low else bar.high
  let parsed_low := if high_volatility then bar.high else bar.low
  { d with
    bars := d.bars ++ [bar]
    atr_window := atr_window
    parsed_highs := d.parsed_highs ++ [parsed_high]
    parsed_lows := d.parsed_lows ++ [parsed_low] }

/-- `OrderBlockDetector._set_pivot`. -/
def set_pivot (pivot : Pivot) (level : Rat) (timestamp : Int) (index : Nat) : Pivot :=
  { last_level := pivot.current_level
    current_level := some level
    crossed := false
    bar_time := some timestamp
    bar_index := some index }

/-- `OrderBlockDetector._update_structure`: per-bar leg update for the
structure of lookback `size`; on a leg change the corresponding pivot is
re-anchored at the anchor bar. -/
def updateStructure (d : Detector) (size : Nat) (internal : Bool) : Detector :=
  if d.bars.length ≤ size then d
  else
    let prev_leg := d.legs size
    let anchor_index := d.bars.length - 1 - size
    let anchor_bar := d.bars.getD anchor_index dBar
    let subsequent := d.bars.drop (anchor_index + 1)
    if subsequent.length = 0 then d
    else
      let recent_high := listMax (subsequent.map Bar.high)
      let recent_low := listMin (subsequent.map Bar.low)
      let current_leg : Int :=
        if anchor_bar.high > recent_high then 0
        else if anchor_bar.low < recent_low then 1
        else prev_leg
      let d' := { d with legs := fun s => if s = size then current_leg else d.legs s }
      let change := current_leg - prev_leg
      if change = 0 then d'
      else if change = 1 then
        if internal then
          { d' with internal_low :=
              set_pivot d.internal_low anchor_bar.low anchor_bar.timestamp anchor_index }
        else
          { d' with swing_low :=
              set_pivot d.swing_low anchor_bar.low anchor_bar.timestamp anchor_index }
      else if change = -1 then
        if internal then
          { d' with internal_high :=
              set_pivot d.internal_high anchor_bar.high anchor_bar.timestamp anchor_index }
        else
          { d' with swing_high :=
              set_pivot d.swing_high anchor_bar.high anchor_bar.timestamp anchor_index }
      else d'

/-- `OrderBlockDetector._store_order_block`: locate the origin bar in the
parsed segment `[pivot.bar_index, current]` and materialise the block,
appending it to the permanent record and prepending its position to the
scope's active container (trimmed to `max_order_blocks`). -/
def storeOrderBlock (d : Detector) (pivot : Pivot) (internal : Bool) (bias : Bias) :
    Detector :=
  match pivot.bar_index with
  | none => d
  | some start_index =>
      let end_index := d.bars.length
      if end_index ≤ start_index then d
      else
        let segment_highs := (d.parsed_highs.take end_index).drop start_index
        let segment_lows := (d.parsed_lows.take end_index).drop start_index
        let reference_values :=
          match bias with
          | .BULLISH => segment_lows
          | .BEARISH => segment_highs
        if reference_values.length = 0 then d
        else
          let offset :=
            match bias with
            | .BULLISH => indexOfQ segment_lows (listMin segment_lows)
            | .BEARISH => indexOfQ segment_highs (listMax segment_highs)
          let order_index := start_index + offset
          let order_high := d.parsed_highs.getD order_index 0
          let order_low := d.parsed_lows.getD order_index 0
          let order_time := (d.bars.getD order_index dBar).timestamp
          let pivot_time := pivot.bar_time.getD order_time
          let created_time := (d.bars.getD (d.bars.length - 1) dBar).timestamp
          let order_block : OrderBlock :=
            { high := order_high
              low := order_low
              start_time := order_time
              created_time := created_time
              pivot_time := pivot_time
              bias := bias
              internal := internal
              mitigated := false }
          let idx := d.detected_order_blocks.length
          let detected := d.detected_order_blocks ++ [order_block]
          if internal then
            { d with
              detected_order_blocks := detected
              internal_order_blocks :=
                (idx :: d.internal_order_blocks).take d.max_order_blocks }
          else
            { d with
              detected_order_blocks := detected
              swing_order_blocks :=
                (idx :: d.swing_order_blocks).take d.max_order_blocks }

/-- The bullish half of `OrderBlockDetector._display_structure`: a close
crossing above the uncrossed pivot high claims it, flips the trend bullish
and stores a bullish order block. -/
def displayBull (d : Detector) (internal : Bool) (previous_close current_close : Rat) :
    Detector :=
  let pivot_high := if internal then d.internal_high else d.swing_high
  match pivot_high.current_level with
  | none => d
  | some level =>
      if pivot_high.crossed = false ∧ previous_close ≤ level ∧
          current_close > level then
        let crossed_pivot := { pivot_high with crossed := true }
        let d' :=
          if internal then
            { d with
              internal_trend := ⟨Bias.BULLISH.value⟩
              internal_high := crossed_pivot }
          else
            { d with
              swing_trend := ⟨Bias.BULLISH.value⟩
              swing_high := crossed_pivot }
        storeOrderBlock d' crossed_pivot internal .BULLISH
      else d

/-- The bearish half of `OrderBlockDetector._display_structure`. -/
def displayBear (d : Detector) (internal : Bool) (previous_close current_close : Rat) :
    Detector :=
  let pivot_low := if internal then d.internal_low else d.swing_low
  match pivot_low.current_level with
  | none => d
  | some level =>
      if pivot_low.crossed = false ∧ previous_close ≥ level ∧
          current_close < level then
        let crossed_pivot := { pivot_low with crossed := true }
        let d' :=
          if internal then
            { d with
              internal_trend := ⟨Bias.BEARISH.value⟩
              internal_low := crossed_pivot }
          else
            { d with
              swing_trend := ⟨Bias.BEARISH.value⟩
              swing_low := crossed_pivot }
        storeOrderBlock d' crossed_pivot internal .BEARISH
      else d

/-- `OrderBlockDetector._display_structure`: breakout detection against the
two pivots of one scope (bullish check first, then bearish on the updated
state; both read the same pair of closing prices). -/
def displayStructure (d : Detector) (internal : Bool) : Detector :=
  if d.bars.length < 2 then d
  else
    let previous_close := (d.bars.getD (d.bars.length - 2) dBar).close
    let current_close := (d.bars.getD (d.bars.length - 1) dBar).close
    displayBear (displayBull d internal previous_close current_close)
      internal previous_close current_close

/-- The mitigation test of `_delete_order_blocks`: a bullish block is hit
when the bar's low falls below the block's low, a bearish one when the
bar's high rises above the block's high (raw values, strict comparisons). -/
def mitigCond (order_block : OrderBlock) (bar : Bar) : Bool :=
  match order_block.bias with
  | .BULLISH => decide (bar.low < order_block.low)
  | .BEARISH => decide (bar.high > order_block.high)

/-- One step of the mitigation sweep: flag and drop, or keep. -/
def deleteStep (bar : Bar) (acc : List OrderBlock × List Nat) (idx : Nat) :
    List OrderBlock × List Nat :=
  let order_block := acc.1.getD idx dOB
  if mitigCond order_block bar then
    (acc.1.set idx { order_block with mitigated := true }, acc.2)
  else
    (acc.1, acc.2 ++ [idx])

/-- `OrderBlockDetector._delete_order_blocks` for one scope. -/
def deleteOrderBlocks (d : Detector) (internal : Bool) : Detector :=
  let container := if internal then d.internal_order_blocks else d.swing_order_blocks
  if container.length = 0 then d
  else
    let current_bar := d.bars.getD (d.bars.length - 1) dBar
    let r := container.foldl (deleteStep current_bar) (d.detected_order_blocks, [])
    if internal then
      { d with
        detected_order_blocks := r.1
        internal_order_blocks := r.2 }
    else
      { d with
        detected_order_blocks := r.1
        swing_order_blocks := r.2 }

/-- `OrderBlockDetector._process_bar`. -/
def processBar (d : Detector) (bar : Bar) : Detector :=
  let d1 := appendBar d bar
  let d2 := updateStructure d1 d1.swing_length false
  let d3 := updateStructure d2 d2.internal_length true
  let d4 := displayStructure d3 true
  let d5 := displayStructure d4 false
  let d6 := deleteOrderBlocks d5 true
  deleteOrderBlocks d6 false

/-- `OrderBlockDetector.process`: run the bars, return the final state and
(a copy of) the full chronological result list. -/
def process (d : Detector) (bars : List Bar) : Detector × List OrderBlock :=
  let d' := bars.foldl processBar d
  (d', d'.detected_order_blocks)

end StockOB

namespace StockOB

/-! ### Basic facts about the list helpers -/

lemma foldl_min_le_init (xs : List Rat) (a : Rat) : xs.foldl min a ≤ a := by
  induction xs generalizing a with
  | nil => simp
  | cons x xs ih => exact le_trans (ih (min a x)) (min_le_left a x)

lemma foldl_min_le_mem (xs : List Rat) (a : Rat) : ∀ x ∈ xs, xs.foldl min a ≤ x := by
  induction xs generalizing a with
  | nil => simp
  | cons y ys ih =>
      intro x hx
      rcases List.mem_cons.mp hx with h | h
      · subst h
        exact le_trans (foldl_min_le_init ys (min a x)) (min_le_right a x)
      · exact ih (min a y) x h

lemma foldl_min_eq_or_mem (xs : List Rat) (a : Rat) :
    xs.foldl min a = a ∨ xs.foldl min a ∈ xs := by
  induction xs generalizing a with
  | nil => left; rfl
  | cons y ys ih =>
      rcases ih (min a y) with h | h
      · rcases min_cases a y with ⟨he, _⟩ | ⟨he, _⟩
        · left; simpa [List.foldl_cons, he] using h
        · right
          simp only [List.foldl_cons]
          rw [h, he]
          exact List.mem_cons_self y ys
      · right; right; simpa [List.foldl_cons] using h

lemma listMin_le (l : List Rat) : ∀ x ∈ l, listMin l ≤ x := by
  cases l with
  | nil => simp
  | cons x xs =>
      intro y hy
      rcases List.mem_cons.mp hy with h | h
      · subst h; exact foldl_min_le_init xs y
      · exact foldl_min_le_mem xs x y h

lemma listMin_mem (l : List Rat) (h : l ≠ []) : listMin l ∈ l := by
  cases l with
  | nil => exact absurd rfl h
  | cons x xs =>
      rcases foldl_min_eq_or_mem xs x with he | he
      · simp [listMin, he]
      · exact List.mem_cons_of_mem x (by simpa [listMin] using he)

lemma foldl_max_init_le (xs : List Rat) (a : Rat) : a ≤ xs.foldl max a := by
  induction xs generalizing a with
  | nil => simp
  | cons x xs ih => exact le_trans (le_max_left a x) (ih (max a x))

lemma foldl_max_mem_le (xs : List Rat) (a : Rat) : ∀ x ∈ xs, x ≤ xs.foldl max a := by
  induction xs generalizing a with
  | nil => simp
  | cons y ys ih =>
      intro x hx
      rcases List.mem_cons.mp hx with h | h
      · subst h
        exact le_trans (le_max_right a x) (foldl_max_init_le ys (max a x))
      · exact ih (max a y) x h

lemma foldl_max_eq_or_mem (xs : List Rat) (a : Rat) :
    xs.foldl max a = a ∨ xs.foldl max a ∈ xs := by
  induction xs generalizing a with
  | nil => left; rfl
  | cons y ys ih =>
      rcases ih (max a y) with h | h
      · rcases max_cases a y with ⟨he, _⟩ | ⟨he, _⟩
        · left; simpa [List.foldl_cons, he] using h
        · right
          simp only [List.foldl_cons]
          rw [h, he]
          exact List.mem_cons_self y ys
      · right; right; simpa [List.foldl_cons] using h

lemma le_listMax (l : List Rat) : ∀ x ∈ l, x ≤ listMax l := by
  cases l with
  | nil => simp
  | cons x xs =>
      intro y hy
      rcases List.mem_cons.mp hy with h | h
      · subst h; exact foldl_max_init_le xs y
      · exact foldl_max_mem_le xs x y h

lemma listMax_mem (l : List Rat) (h : l ≠ []) : listMax l ∈ l := by
  cases l with
  | nil => exact absurd rfl h
  | cons x xs =>
      rcases foldl_max_eq_or_mem xs x with he | he
      · simp [listMax, he]
      · exact List.mem_cons_of_mem x (by simpa [listMax] using he)

lemma indexOfQ_lt_length {l : List Rat} {v : Rat} (h : v ∈ l) :
    indexOfQ l v < l.length := by
  induction l with
  | nil => cases h
  | cons x xs ih =>
      by_cases hx : x = v
      · simp [indexOfQ, hx]
      · rcases List.mem_cons.mp h with h' | h'
        · exact absurd h'.symm hx
        · simpa [indexOfQ, hx] using ih h'

lemma getElem?_indexOfQ {l : List Rat} {v : Rat} (h : v ∈ l) :
    l[indexOfQ l v]? = some v := by
  induction l with
  | nil => cases h
  | cons x xs ih =>
      by_cases hx : x = v
      · simp [indexOfQ, hx]
      · rcases List.mem_cons.mp h with h' | h'
        · exact absurd h'.symm hx
        · simpa [indexOfQ, hx] using ih h'

lemma indexOfQ_first {l : List Rat} {v : Rat} :
    ∀ k < indexOfQ l v, l[k]? ≠ some v := by
  induction l with
  | nil => intro k hk; simp [indexOfQ] at hk
  | cons x xs ih =>
      intro k hk
      by_cases hx : x = v
      · simp [indexOfQ, hx] at hk
      · simp only [indexOfQ, if_neg hx] at hk
        cases k with
        | zero => simpa using hx
        | succ k => simpa using ih k (by omega)

/-! ### `__init__` / configuration validation (claim C7) -/

/-- C7: a non-positive `swing_length` or `internal_length` makes construction
fail with a configuration-validation error, so no detector value exists to
process any bar. -/
theorem invalid_config_rejected (swing_length internal_length : Int)
    (atr_period max_order_blocks : Nat)
    (h : swing_length ≤ 0 ∨ internal_length ≤ 0) :
    mkOrderBlockDetector swing_length internal_length atr_period max_order_blocks =
      .error "Structure lengths must be positive" ∧
    ∀ d : Detector,
      mkOrderBlockDetector swing_length internal_length atr_period max_order_blocks ≠
        .ok d := by
  constructor
  · simp [mkOrderBlockDetector, h]
  · intro d hd
    rw [mkOrderBlockDetector, if_pos h] at hd
    exact Except.noConfusion hd

/-- Witness for C7 at `swing_length = 0`. -/
theorem invalid_config_rejected_witness :
    ((0 : Int) ≤ 0 ∨ (4 : Int) ≤ 0) ∧
      mkOrderBlockDetector 0 4 200 100 =
        .error "Structure lengths must be positive" :=
  ⟨Or.inl le_rfl, (invalid_config_rejected 0 4 200 100 (Or.inl le_rfl)).1⟩

end StockOB

namespace StockOB

/-! ### Frame lemmas: which fields each phase leaves untouched -/

lemma appendBar_frame (d : Detector) (bar : Bar) :
    (appendBar d bar).bars = d.bars ++ [bar] ∧
    (appendBar d bar).detected_order_blocks = d.detected_order_blocks ∧
    (appendBar d bar).internal_order_blocks = d.internal_order_blocks ∧
    (appendBar d bar).swing_order_blocks = d.swing_order_blocks ∧
    (appendBar d bar).max_order_blocks = d.max_order_blocks ∧
    (appendBar d bar).swing_length = d.swing_length ∧
    (appendBar d bar).internal_length = d.internal_length ∧
    (appendBar d bar).atr_period = d.atr_period :=
  ⟨rfl, rfl, rfl, rfl, rfl, rfl, rfl, rfl⟩

lemma appendBar_parsed_highs_len (d : Detector) (bar : Bar) :
    (appendBar d bar).parsed_highs.length = d.parsed_highs.length + 1 := by
  simp [appendBar]

lemma appendBar_parsed_lows_len (d : Detector) (bar : Bar) :
    (appendBar d bar).parsed_lows.length = d.parsed_lows.length + 1 := by
  simp [appendBar]

lemma updateStructure_bars (d : Detector) (size : Nat) (internal : Bool) :
    (updateStructure d size internal).bars = d.bars := by
  simp only [updateStructure]
  repeat' (first | rfl | split)

lemma updateStructure_parsed_highs (d : Detector) (size : Nat) (internal : Bool) :
    (updateStructure d size internal).parsed_highs = d.parsed_highs := by
  simp only [updateStructure]
  repeat' (first | rfl | split)

lemma updateStructure_parsed_lows (d : Detector) (size : Nat) (internal : Bool) :
    (updateStructure d size internal).parsed_lows = d.parsed_lows := by
  simp only [updateStructure]
  repeat' (first | rfl | split)

lemma updateStructure_detected_order_blocks (d : Detector) (size : Nat) (internal : Bool) :
    (updateStructure d size internal).detected_order_blocks = d.detected_order_blocks := by
  simp only [updateStructure]
  repeat' (first | rfl | split)

lemma updateStructure_internal_order_blocks (d : Detector) (size : Nat) (internal : Bool) :
    (updateStructure d size internal).internal_order_blocks = d.internal_order_blocks := by
  simp only [updateStructure]
  repeat' (first | rfl | split)

lemma updateStructure_swing_order_blocks (d : Detector) (size : Nat) (internal : Bool) :
    (updateStructure d size internal).swing_order_blocks = d.swing_order_blocks := by
  simp only [updateStructure]
  repeat' (first | rfl | split)

lemma updateStructure_max_order_blocks (d : Detector) (size : Nat) (internal : Bool) :
    (updateStructure d size internal).max_order_blocks = d.max_order_blocks := by
  simp only [updateStructure]
  repeat' (first | rfl | split)

lemma updateStructure_swing_length (d : Detector) (size : Nat) (internal : Bool) :
    (updateStructure d size internal).swing_length = d.swing_length := by
  simp only [updateStructure]
  repeat' (first | rfl | split)

lemma updateStructure_internal_length (d : Detector) (size : Nat) (internal : Bool) :
    (updateStructure d size internal).internal_length = d.internal_length := by
  simp only [updateStructure]
  repeat' (first | rfl | split)

lemma updateStructure_atr_period (d : Detector) (size : Nat) (internal : Bool) :
    (updateStructure d size internal).atr_period = d.atr_period := by
  simp only [updateStructure]
  repeat' (first | rfl | split)

lemma updateStructure_atr_window (d : Detector) (size : Nat) (internal : Bool) :
    (updateStructure d size internal).atr_window = d.atr_window := by
  simp only [updateStructure]
  repeat' (first | rfl | split)

set_option maxHeartbeats 1000000 in
lemma deleteOrderBlocks_frame (d : Detector) (internal : Bool) :
    (deleteOrderBlocks d internal).bars = d.bars ∧
    (deleteOrderBlocks d internal).parsed_highs = d.parsed_highs ∧
    (deleteOrderBlocks d internal).parsed_lows = d.parsed_lows ∧
    (deleteOrderBlocks d internal).max_order_blocks = d.max_order_blocks ∧
    (deleteOrderBlocks d internal).swing_length = d.swing_length ∧
    (deleteOrderBlocks d internal).internal_length = d.internal_length ∧
    (deleteOrderBlocks d internal).atr_period = d.atr_period := by
  refine ⟨?_, ?_, ?_, ?_, ?_, ?_, ?_⟩ <;>
    (simp only [deleteOrderBlocks]; repeat' (first | rfl | split))

set_option maxHeartbeats 1000000 in
lemma deleteOrderBlocks_other_container (d : Detector) :
    (deleteOrderBlocks d true).swing_order_blocks = d.swing_order_blocks ∧
    (deleteOrderBlocks d false).internal_order_blocks = d.internal_order_blocks := by
  constructor <;>
    (simp only [deleteOrderBlocks]
     repeat' (first | rfl | split)
     all_goals simp_all)

/-! ### The create-a-block dichotomy of `_store_order_block` -/

lemma storeOrderBlock_cases (d : Detector) (p : Pivot) (internal : Bool) (bias : Bias) :
    storeOrderBlock d p internal bias = d ∨
    ∃ (ob : OrderBlock) (pos : Nat), pos < d.bars.length ∧
      ob.high = d.parsed_highs.getD pos 0 ∧
      ob.low = d.parsed_lows.getD pos 0 ∧
      ob.bias = bias ∧ ob.internal = internal ∧ ob.mitigated = false ∧
      storeOrderBlock d p internal bias =
        (if internal then
          { d with
            detected_order_blocks := d.detected_order_blocks ++ [ob]
            internal_order_blocks :=
              (d.detected_order_blocks.length :: d.internal_order_blocks).take
                d.max_order_blocks }
        else
          { d with
            detected_order_blocks := d.detected_order_blocks ++ [ob]
            swing_order_blocks :=
              (d.detected_order_blocks.length :: d.swing_order_blocks).take
                d.max_order_blocks }) := by
  cases hpi : p.bar_index with
  | none => left; simp [storeOrderBlock, hpi]
  | some s =>
      by_cases h1 : d.bars.length ≤ s
      · left
        simp only [storeOrderBlock, hpi]
        rw [if_pos h1]
      · cases bias with
        | BULLISH =>
            by_cases h2 : ((d.parsed_lows.take d.bars.length).drop s).length = 0
            · left
              simp only [storeOrderBlock, hpi]
              rw [if_neg h1]
              simp [h2]
            · right
              have hne : (d.parsed_lows.take d.bars.length).drop s ≠ [] := by
                intro h; rw [h] at h2; exact h2 rfl
              have hofflt :
                  indexOfQ ((d.parsed_lows.take d.bars.length).drop s)
                      (listMin ((d.parsed_lows.take d.bars.length).drop s)) <
                    ((d.parsed_lows.take d.bars.length).drop s).length :=
                indexOfQ_lt_length (listMin_mem _ hne)
              have hseglen : ((d.parsed_lows.take d.bars.length).drop s).length =
                  min d.bars.length d.parsed_lows.length - s := by
                simp [List.length_drop, List.length_take]
              refine ⟨⟨d.parsed_highs.getD
                  (s + indexOfQ ((d.parsed_lows.take d.bars.length).drop s)
                    (listMin ((d.parsed_lows.take d.bars.length).drop s))) 0,
                d.parsed_lows.getD
                  (s + indexOfQ ((d.parsed_lows.take d.bars.length).drop s)
                    (listMin ((d.parsed_lows.take d.bars.length).drop s))) 0,
                (d.bars.getD
                  (s + indexOfQ ((d.parsed_lows.take d.bars.length).drop s)
                    (listMin ((d.parsed_lows.take d.bars.length).drop s))) dBar).timestamp,
                (d.bars.getD (d.bars.length - 1) dBar).timestamp,
                p.bar_time.getD
                  (d.bars.getD
                    (s + indexOfQ ((d.parsed_lows.take d.bars.length).drop s)
                      (listMin ((d.parsed_lows.take d.bars.length).drop s))) dBar).timestamp,
                .BULLISH, internal, false⟩,
                s + indexOfQ ((d.parsed_lows.take d.bars.length).drop s)
                  (listMin ((d.parsed_lows.take d.bars.length).drop s)), ?_,
                rfl, rfl, rfl, rfl, rfl, ?_⟩
              · omega
              · simp only [storeOrderBlock, hpi]
                rw [if_neg h1]
                simp only [List.length_eq_zero] at h2 ⊢
                rw [if_neg h2]
        | BEARISH =>
            by_cases h2 : ((d.parsed_highs.take d.bars.length).drop s).length = 0
            · left
              simp only [storeOrderBlock, hpi]
              rw [if_neg h1]
              simp [h2]
            · right
              have hne : (d.parsed_highs.take d.bars.length).drop s ≠ [] := by
                intro h; rw [h] at h2; exact h2 rfl
              have hofflt :
                  indexOfQ ((d.parsed_highs.take d.bars.length).drop s)
                      (listMax ((d.parsed_highs.take d.bars.length).drop s)) <
                    ((d.parsed_highs.take d.bars.length).drop s).length :=
                indexOfQ_lt_length (listMax_mem _ hne)
              have hseglen : ((d.parsed_highs.take d.bars.length).drop s).length =
                  min d.bars.length d.parsed_highs.length - s := by
                simp [List.length_drop, List.length_take]
              refine ⟨⟨d.parsed_highs.getD
                  (s + indexOfQ ((d.parsed_highs.take d.bars.length).drop s)
                    (listMax ((d.parsed_highs.take d.bars.length).drop s))) 0,
                d.parsed_lows.getD
                  (s + indexOfQ ((d.parsed_highs.take d.bars.length).drop s)
                    (listMax ((d.parsed_highs.take d.bars.length).drop s))) 0,
                (d.bars.getD
                  (s + indexOfQ ((d.parsed_highs.take d.bars.length).drop s)
                    (listMax ((d.parsed_highs.take d.bars.length).drop s))) dBar).timestamp,
                (d.bars.getD (d.bars.length - 1) dBar).timestamp,
                p.bar_time.getD
                  (d.bars.getD
                    (s + indexOfQ ((d.parsed_highs.take d.bars.length).drop s)
                      (listMax ((d.parsed_highs.take d.bars.length).drop s))) dBar).timestamp,
                .BEARISH, internal, false⟩,
                s + indexOfQ ((d.parsed_highs.take d.bars.length).drop s)
                  (listMax ((d.parsed_highs.take d.bars.length).drop s)), ?_,
                rfl, rfl, rfl, rfl, rfl, ?_⟩
              · omega
              · simp only [storeOrderBlock, hpi]
                rw [if_neg h1]
                simp only [List.length_eq_zero] at h2 ⊢
                rw [if_neg h2]

/-! ### Case analyses of the two breakout halves -/

lemma displayBull_cases (d : Detector) (internal : Bool) (pc cc : Rat) :
    ∃ (sh ih : Pivot) (st it : Trend),
      displayBull d internal pc cc =
        { d with swing_high := sh, internal_high := ih,
                 swing_trend := st, internal_trend := it } ∨
      ∃ (ob : OrderBlock) (pos : Nat), pos < d.bars.length ∧
        ob.high = d.parsed_highs.getD pos 0 ∧
        ob.low = d.parsed_lows.getD pos 0 ∧
        ob.bias = .BULLISH ∧ ob.internal = internal ∧ ob.mitigated = false ∧
        displayBull d internal pc cc =
          (if internal then
            { d with swing_high := sh, internal_high := ih,
                     swing_trend := st, internal_trend := it,
                     detected_order_blocks := d.detected_order_blocks ++ [ob],
                     internal_order_blocks :=
                       (d.detected_order_blocks.length ::
                         d.internal_order_blocks).take d.max_order_blocks }
          else
            { d with swing_high := sh, internal_high := ih,
                     swing_trend := st, internal_trend := it,
                     detected_order_blocks := d.detected_order_blocks ++ [ob],
                     swing_order_blocks :=
                       (d.detected_order_blocks.length ::
                         d.swing_order_blocks).take d.max_order_blocks }) := by
  cases internal with
  | true =>
      simp only [displayBull, if_true, Bool.false_eq_true, if_false]
      split
      · exact ⟨d.swing_high, d.internal_high, d.swing_trend, d.internal_trend,
          Or.inl rfl⟩
      · rename_i level hlev
        by_cases hc : d.internal_high.crossed = false ∧ pc ≤ level ∧ cc > level
        · rw [if_pos hc]
          rcases storeOrderBlock_cases
              { d with internal_trend := ⟨Bias.BULLISH.value⟩,
                       internal_high := { d.internal_high with crossed := true } }
              { d.internal_high with crossed := true } true .BULLISH with
            h | ⟨ob, pos, hpos, hh, hl, hb, hi, hm, heq⟩
          · exact ⟨d.swing_high, { d.internal_high with crossed := true },
              d.swing_trend, ⟨Bias.BULLISH.value⟩, Or.inl h⟩
          · refine ⟨d.swing_high, { d.internal_high with crossed := true },
              d.swing_trend, ⟨Bias.BULLISH.value⟩, Or.inr
                ⟨ob, pos, hpos, hh, hl, hb, hi, hm, ?_⟩⟩
            rw [heq]
            simp
        · rw [if_neg hc]
          exact ⟨d.swing_high, d.internal_high, d.swing_trend, d.internal_trend,
            Or.inl rfl⟩
  | false =>
      simp only [displayBull, if_true, Bool.false_eq_true, if_false]
      split
      · exact ⟨d.swing_high, d.internal_high, d.swing_trend, d.internal_trend,
          Or.inl rfl⟩
      · rename_i level hlev
        by_cases hc : d.swing_high.crossed = false ∧ pc ≤ level ∧ cc > level
        · rw [if_pos hc]
          rcases storeOrderBlock_cases
              { d with swing_trend := ⟨Bias.BULLISH.value⟩,
                       swing_high := { d.swing_high with crossed := true } }
              { d.swing_high with crossed := true } false .BULLISH with
            h | ⟨ob, pos, hpos, hh, hl, hb, hi, hm, heq⟩
          · exact ⟨{ d.swing_high with crossed := true }, d.internal_high,
              ⟨Bias.BULLISH.value⟩, d.internal_trend, Or.inl h⟩
          · refine ⟨{ d.swing_high with crossed := true }, d.internal_high,
              ⟨Bias.BULLISH.value⟩, d.internal_trend, Or.inr
                ⟨ob, pos, hpos, hh, hl, hb, hi, hm, ?_⟩⟩
            rw [heq]
            simp
        · rw [if_neg hc]
          exact ⟨d.swing_high, d.internal_high, d.swing_trend, d.internal_trend,
            Or.inl rfl⟩

lemma displayBear_cases (d : Detector) (internal : Bool) (pc cc : Rat) :
    ∃ (sl il : Pivot) (st it : Trend),
      displayBear d internal pc cc =
        { d with swing_low := sl, internal_low := il,
                 swing_trend := st, internal_trend := it } ∨
      ∃ (ob : OrderBlock) (pos : Nat), pos < d.bars.length ∧
        ob.high = d.parsed_highs.getD pos 0 ∧
        ob.low = d.parsed_lows.getD pos 0 ∧
        ob.bias = .BEARISH ∧ ob.internal = internal ∧ ob.mitigated = false ∧
        cc < pc ∧
        displayBear d internal pc cc =
          (if internal then
            { d with swing_low := sl, internal_low := il,
                     swing_trend := st, internal_trend := it,
                     detected_order_blocks := d.detected_order_blocks ++ [ob],
                     internal_order_blocks :=
                       (d.detected_order_blocks.length ::
                         d.internal_order_blocks).take d.max_order_blocks }
          else
            { d with swing_low := sl, internal_low := il,
                     swing_trend := st, internal_trend := it,
                     detected_order_blocks := d.detected_order_blocks ++ [ob],
                     swing_order_blocks :=
                       (d.detected_order_blocks.length ::
                         d.swing_order_blocks).take d.max_order_blocks }) := by
  cases internal with
  | true =>
      simp only [displayBear, if_true, Bool.false_eq_true, if_false]
      split
      · exact ⟨d.swing_low, d.internal_low, d.swing_trend, d.internal_trend,
          Or.inl rfl⟩
      · rename_i level hlev
        by_cases hc : d.internal_low.crossed = false ∧ pc ≥ level ∧ cc < level
        · rw [if_pos hc]
          have hlt : cc < pc := lt_of_lt_of_le hc.2.2 hc.2.1
          rcases storeOrderBlock_cases
              { d with internal_trend := ⟨Bias.BEARISH.value⟩,
                       internal_low := { d.internal_low with crossed := true } }
              { d.internal_low with crossed := true } true .BEARISH with
            h | ⟨ob, pos, hpos, hh, hl, hb, hi, hm, heq⟩
          · exact ⟨d.swing_low, { d.internal_low with crossed := true },
              d.swing_trend, ⟨Bias.BEARISH.value⟩, Or.inl h⟩
          · refine ⟨d.swing_low, { d.internal_low with crossed := true },
              d.swing_trend, ⟨Bias.BEARISH.value⟩, Or.inr
                ⟨ob, pos, hpos, hh, hl, hb, hi, hm, hlt, ?_⟩⟩
            rw [heq]
            simp
        · rw [if_neg hc]
          exact ⟨d.swing_low, d.internal_low, d.swing_trend, d.internal_trend,
            Or.inl rfl⟩
  | false =>
      simp only [displayBear, if_true, Bool.false_eq_true, if_false]
      split
      · exact ⟨d.swing_low, d.internal_low, d.swing_trend, d.internal_trend,
          Or.inl rfl⟩
      · rename_i level hlev
        by_cases hc : d.swing_low.crossed = false ∧ pc ≥ level ∧ cc < level
        · rw [if_pos hc]
          have hlt : cc < pc := lt_of_lt_of_le hc.2.2 hc.2.1
          rcases storeOrderBlock_cases
              { d with swing_trend := ⟨Bias.BEARISH.value⟩,
                       swing_low := { d.swing_low with crossed := true } }
              { d.swing_low with crossed := true } false .BEARISH with
            h | ⟨ob, pos, hpos, hh, hl, hb, hi, hm, heq⟩
          · exact ⟨{ d.swing_low with crossed := true }, d.internal_low,
              ⟨Bias.BEARISH.value⟩, d.internal_trend, Or.inl h⟩
          · refine ⟨{ d.swing_low with crossed := true }, d.internal_low,
              ⟨Bias.BEARISH.value⟩, d.internal_trend, Or.inr
                ⟨ob, pos, hpos, hh, hl, hb, hi, hm, hlt, ?_⟩⟩
            rw [heq]
            simp
        · rw [if_neg hc]
          exact ⟨d.swing_low, d.internal_low, d.swing_trend, d.internal_trend,
            Or.inl rfl⟩

/-- What one breakout half does to the block bookkeeping: it appends `news`
to the permanent record, only ever prepends fresh positions to the (capped)
active containers, and leaves the per-bar data alone. -/
def StageStep (d d1 : Detector) (news : List OrderBlock) (internal : Bool) : Prop :=
  d1.detected_order_blocks = d.detected_order_blocks ++ news ∧
  (∀ ob ∈ news, ob.internal = internal ∧ ob.mitigated = false ∧
    ∃ pos, pos < d.bars.length ∧ ob.high = d.parsed_highs.getD pos 0 ∧
      ob.low = d.parsed_lows.getD pos 0) ∧
  (∀ i ∈ d1.internal_order_blocks,
    i ∈ d.internal_order_blocks ∨
      (d.detected_order_blocks.length ≤ i ∧
        i < d.detected_order_blocks.length + news.length)) ∧
  (∀ i ∈ d1.swing_order_blocks,
    i ∈ d.swing_order_blocks ∨
      (d.detected_order_blocks.length ≤ i ∧
        i < d.detected_order_blocks.length + news.length)) ∧
  d1.internal_order_blocks.length ≤
    max d.internal_order_blocks.length d.max_order_blocks ∧
  d1.swing_order_blocks.length ≤
    max d.swing_order_blocks.length d.max_order_blocks ∧
  d1.bars = d.bars ∧ d1.parsed_highs = d.parsed_highs ∧
  d1.parsed_lows = d.parsed_lows ∧ d1.max_order_blocks = d.max_order_blocks ∧
  (internal = true → d1.swing_order_blocks = d.swing_order_blocks) ∧
  (internal = false → d1.internal_order_blocks = d.internal_order_blocks)

lemma StageStep.refl (d : Detector) (internal : Bool) : StageStep d d [] internal :=
  ⟨by simp, by simp, fun i hi => Or.inl hi, fun i hi => Or.inl hi,
    le_max_left _ _, le_max_left _ _, rfl, rfl, rfl, rfl,
    fun _ => rfl, fun _ => rfl⟩

lemma StageStep.comp {d d1 d2 : Detector} {news1 news2 : List OrderBlock}
    {internal : Bool} (h1 : StageStep d d1 news1 internal)
    (h2 : StageStep d1 d2 news2 internal) :
    StageStep d d2 (news1 ++ news2) internal := by
  obtain ⟨hdet1, hprops1, hmi1, hms1, hli1, hls1, hb1, hph1, hpl1, hm1, hsw1, hin1⟩ := h1
  obtain ⟨hdet2, hprops2, hmi2, hms2, hli2, hls2, hb2, hph2, hpl2, hm2, hsw2, hin2⟩ := h2
  refine ⟨?_, ?_, ?_, ?_, ?_, ?_, ?_, ?_, ?_, ?_, ?_, ?_⟩
  · rw [hdet2, hdet1, List.append_assoc]
  · intro ob hob
    rcases List.mem_append.mp hob with h | h
    · exact hprops1 ob h
    · obtain ⟨hi, hm, pos, hpos, hh, hl⟩ := hprops2 ob h
      exact ⟨hi, hm, pos, by rwa [hb1] at hpos, by rwa [hph1] at hh,
        by rwa [hpl1] at hl⟩
  · intro i hi
    rcases hmi2 i hi with h | ⟨h1', h2'⟩
    · rcases hmi1 i h with h' | ⟨h1'', h2''⟩
      · exact Or.inl h'
      · exact Or.inr ⟨h1'', by simp only [List.length_append]; omega⟩
    · rw [hdet1, List.length_append] at h1' h2'
      exact Or.inr ⟨by omega, by simp only [List.length_append]; omega⟩
  · intro i hi
    rcases hms2 i hi with h | ⟨h1', h2'⟩
    · rcases hms1 i h with h' | ⟨h1'', h2''⟩
      · exact Or.inl h'
      · exact Or.inr ⟨h1'', by simp only [List.length_append]; omega⟩
    · rw [hdet1, List.length_append] at h1' h2'
      exact Or.inr ⟨by omega, by simp only [List.length_append]; omega⟩
  · calc d2.internal_order_blocks.length ≤
        max d1.internal_order_blocks.length d1.max_order_blocks := hli2
      _ ≤ max d.internal_order_blocks.length d.max_order_blocks := by
          rw [hm1]
          exact max_le hli1 (le_max_right _ _)
  · calc d2.swing_order_blocks.length ≤
        max d1.swing_order_blocks.length d1.max_order_blocks := hls2
      _ ≤ max d.swing_order_blocks.length d.max_order_blocks := by
          rw [hm1]
          exact max_le hls1 (le_max_right _ _)
  · rw [hb2, hb1]
  · rw [hph2, hph1]
  · rw [hpl2, hpl1]
  · rw [hm2, hm1]
  · intro ht
    rw [hsw2 ht, hsw1 ht]
  · intro hf
    rw [hin2 hf, hin1 hf]

lemma mem_take_cons {i n cap : Nat} {l : List Nat} (h : i ∈ (n :: l).take cap) :
    i = n ∨ i ∈ l := by
  have := List.mem_of_mem_take h
  simpa using this

lemma displayBull_step (d : Detector) (internal : Bool) (pc cc : Rat) :
    ∃ news, StageStep d (displayBull d internal pc cc) news internal ∧
      ∀ ob ∈ news, ob.bias = .BULLISH := by
  rcases displayBull_cases d internal pc cc with
    ⟨sh, ih, st, it, h | ⟨ob, pos, hpos, hh, hl, hb, hi, hm, heq⟩⟩
  · refine ⟨[], ?_, by simp⟩
    rw [h]
    exact ⟨by simp, by simp, fun i hi => Or.inl hi, fun i hi => Or.inl hi,
      le_max_left _ _, le_max_left _ _, rfl, rfl, rfl, rfl,
      fun _ => rfl, fun _ => rfl⟩
  · refine ⟨[ob], ?_, by simpa using hb⟩
    rw [heq]
    cases internal with
    | true =>
        simp only [if_true]
        refine ⟨rfl, ?_, ?_, fun i hi => Or.inl hi, ?_, le_max_left _ _,
          rfl, rfl, rfl, rfl, fun _ => rfl, by simp⟩
        · intro o ho
          rw [List.mem_singleton] at ho
          subst ho
          exact ⟨hi, hm, pos, hpos, hh, hl⟩
        · intro i hi'
          rcases mem_take_cons hi' with h' | h'
          · exact Or.inr ⟨by omega, by simp [h']⟩
          · exact Or.inl h'
        · calc (List.take d.max_order_blocks
              (d.detected_order_blocks.length :: d.internal_order_blocks)).length ≤
                d.max_order_blocks := by
                  rw [List.length_take]; exact min_le_left _ _
            _ ≤ max d.internal_order_blocks.length d.max_order_blocks :=
                le_max_right _ _
    | false =>
        simp only [Bool.false_eq_true, if_false]
        refine ⟨rfl, ?_, fun i hi => Or.inl hi, ?_, le_max_left _ _, ?_,
          rfl, rfl, rfl, rfl, by simp, fun _ => rfl⟩
        · intro o ho
          rw [List.mem_singleton] at ho
          subst ho
          exact ⟨hi, hm, pos, hpos, hh, hl⟩
        · intro i hi'
          rcases mem_take_cons hi' with h' | h'
          · exact Or.inr ⟨by omega, by simp [h']⟩
          · exact Or.inl h'
        · calc (List.take d.max_order_blocks
              (d.detected_order_blocks.length :: d.swing_order_blocks)).length ≤
                d.max_order_blocks := by
                  rw [List.length_take]; exact min_le_left _ _
            _ ≤ max d.swing_order_blocks.length d.max_order_blocks :=
                le_max_right _ _

lemma displayBear_step (d : Detector) (internal : Bool) (pc cc : Rat) :
    ∃ news, StageStep d (displayBear d internal pc cc) news internal ∧
      (∀ ob ∈ news, ob.bias = .BEARISH) ∧ (news ≠ [] → cc < pc) := by
  rcases displayBear_cases d internal pc cc with
    ⟨sl, il, st, it, h | ⟨ob, pos, hpos, hh, hl, hb, hi, hm, hlt, heq⟩⟩
  · refine ⟨[], ?_, by simp, by simp⟩
    rw [h]
    exact ⟨by simp, by simp, fun i hi => Or.inl hi, fun i hi => Or.inl hi,
      le_max_left _ _, le_max_left _ _, rfl, rfl, rfl, rfl,
      fun _ => rfl, fun _ => rfl⟩
  · refine ⟨[ob], ?_, by simpa using hb, fun _ => hlt⟩
    rw [heq]
    cases internal with
    | true =>
        simp only [if_true]
        refine ⟨rfl, ?_, ?_, fun i hi => Or.inl hi, ?_, le_max_left _ _,
          rfl, rfl, rfl, rfl, fun _ => rfl, by simp⟩
        · intro o ho
          rw [List.mem_singleton] at ho
          subst ho
          exact ⟨hi, hm, pos, hpos, hh, hl⟩
        · intro i hi'
          rcases mem_take_cons hi' with h' | h'
          · exact Or.inr ⟨by omega, by simp [h']⟩
          · exact Or.inl h'
        · calc (List.take d.max_order_blocks
              (d.detected_order_blocks.length :: d.internal_order_blocks)).length ≤
                d.max_order_blocks := by
                  rw [List.length_take]; exact min_le_left _ _
            _ ≤ max d.internal_order_blocks.length d.max_order_blocks :=
                le_max_right _ _
    | false =>
        simp only [Bool.false_eq_true, if_false]
        refine ⟨rfl, ?_, fun i hi => Or.inl hi, ?_, le_max_left _ _, ?_,
          rfl, rfl, rfl, rfl, by simp, fun _ => rfl⟩
        · intro o ho
          rw [List.mem_singleton] at ho
          subst ho
          exact ⟨hi, hm, pos, hpos, hh, hl⟩
        · intro i hi'
          rcases mem_take_cons hi' with h' | h'
          · exact Or.inr ⟨by omega, by simp [h']⟩
          · exact Or.inl h'
        · calc (List.take d.max_order_blocks
              (d.detected_order_blocks.length :: d.swing_order_blocks)).length ≤
                d.max_order_blocks := by
                  rw [List.length_take]; exact min_le_left _ _
            _ ≤ max d.swing_order_blocks.length d.max_order_blocks :=
                le_max_right _ _

lemma displayStructure_step (d : Detector) (internal : Bool) :
    ∃ news, StageStep d (displayStructure d internal) news internal ∧
      ∀ ob ∈ news, ob.bias = .BEARISH →
        2 ≤ d.bars.length ∧
        (d.bars.getD (d.bars.length - 1) dBar).close <
          (d.bars.getD (d.bars.length - 2) dBar).close := by
  rw [displayStructure]
  by_cases hlen : d.bars.length < 2
  · rw [if_pos hlen]
    exact ⟨[], StageStep.refl d internal, by simp⟩
  · rw [if_neg hlen]
    rcases displayBull_step d internal
        ((d.bars.getD (d.bars.length - 2) dBar).close)
        ((d.bars.getD (d.bars.length - 1) dBar).close) with ⟨n1, hs1, hb1⟩
    rcases displayBear_step (displayBull d internal
        ((d.bars.getD (d.bars.length - 2) dBar).close)
        ((d.bars.getD (d.bars.length - 1) dBar).close)) internal
        ((d.bars.getD (d.bars.length - 2) dBar).close)
        ((d.bars.getD (d.bars.length - 1) dBar).close) with ⟨n2, hs2, hb2, hcc⟩
    refine ⟨n1 ++ n2, StageStep.comp hs1 hs2, ?_⟩
    intro ob hob hbear
    rcases List.mem_append.mp hob with h | h
    · rw [hb1 ob h] at hbear
      exact absurd hbear (by simp)
    · refine ⟨by omega, hcc ?_⟩
      intro hn
      rw [hn] at h
      cases h

/-! ### The mitigation sweep -/

lemma mitigCond_congr {a b : OrderBlock} (bar : Bar) (hb : a.bias = b.bias)
    (hh : a.high = b.high) (hl : a.low = b.low) :
    mitigCond a bar = mitigCond b bar := by
  cases hA : a.bias <;> cases hB : b.bias <;>
    simp_all [mitigCond]

lemma getD_set_self {det : List OrderBlock} {c : Nat} (ob : OrderBlock)
    (h : c < det.length) : ((det.set c ob).getD c dOB) = ob := by
  rw [List.getD_eq_getElem?_getD, List.getElem?_set]
  simp [h]

lemma getD_set_ne {det : List OrderBlock} {c j : Nat} (ob : OrderBlock)
    (h : c ≠ j) : ((det.set c ob).getD j dOB) = det.getD j dOB := by
  rw [List.getD_eq_getElem?_getD, List.getElem?_set, if_neg h,
    ← List.getD_eq_getElem?_getD]

lemma getD_set_oob {det : List OrderBlock} {c : Nat} (ob : OrderBlock)
    (h : ¬ c < det.length) : ((det.set c ob).getD c dOB) = det.getD c dOB := by
  rw [List.getD_eq_getElem?_getD, List.getElem?_set]
  simp only [if_pos rfl, if_neg h]
  rw [List.getD_eq_getElem?_getD, List.getElem?_eq_none]
  · rfl
  · omega

set_option maxHeartbeats 1000000 in
lemma deleteFold_spec (bar : Bar) (cs : List Nat) (det : List OrderBlock)
    (acc : List Nat) :
    (cs.foldl (deleteStep bar) (det, acc)).1.length = det.length ∧
    (cs.foldl (deleteStep bar) (det, acc)).2 =
      acc ++ cs.filter (fun idx => ! mitigCond (det.getD idx dOB) bar) ∧
    (∀ j : Nat,
      ((cs.foldl (deleteStep bar) (det, acc)).1.getD j dOB).high =
        (det.getD j dOB).high ∧
      ((cs.foldl (deleteStep bar) (det, acc)).1.getD j dOB).low =
        (det.getD j dOB).low ∧
      ((cs.foldl (deleteStep bar) (det, acc)).1.getD j dOB).start_time =
        (det.getD j dOB).start_time ∧
      ((cs.foldl (deleteStep bar) (det, acc)).1.getD j dOB).created_time =
        (det.getD j dOB).created_time ∧
      ((cs.foldl (deleteStep bar) (det, acc)).1.getD j dOB).pivot_time =
        (det.getD j dOB).pivot_time ∧
      ((cs.foldl (deleteStep bar) (det, acc)).1.getD j dOB).bias =
        (det.getD j dOB).bias ∧
      ((cs.foldl (deleteStep bar) (det, acc)).1.getD j dOB).internal =
        (det.getD j dOB).internal) ∧
    (∀ j : Nat,
      ((cs.foldl (deleteStep bar) (det, acc)).1.getD j dOB).mitigated = true ↔
        ((det.getD j dOB).mitigated = true ∨
          (j ∈ cs ∧ mitigCond (det.getD j dOB) bar = true ∧ j < det.length))) := by
  induction cs generalizing det acc with
  | nil =>
      refine ⟨rfl, by simp, fun j => ⟨rfl, rfl, rfl, rfl, rfl, rfl, rfl⟩, fun j => ?_⟩
      simp
  | cons c cs ih =>
      by_cases hcond : mitigCond (det.getD c dOB) bar = true
      · have hstep : deleteStep bar (det, acc) c =
            (det.set c { det.getD c dOB with mitigated := true }, acc) := by
          simp only [deleteStep]
          rw [if_pos hcond]
        have hfields : ∀ j : Nat,
            ((det.set c { det.getD c dOB with mitigated := true }).getD j dOB).high =
              (det.getD j dOB).high ∧
            ((det.set c { det.getD c dOB with mitigated := true }).getD j dOB).low =
              (det.getD j dOB).low ∧
            ((det.set c { det.getD c dOB with mitigated := true }).getD j dOB).start_time =
              (det.getD j dOB).start_time ∧
            ((det.set c { det.getD c dOB with mitigated := true }).getD j dOB).created_time =
              (det.getD j dOB).created_time ∧
            ((det.set c { det.getD c dOB with mitigated := true }).getD j dOB).pivot_time =
              (det.getD j dOB).pivot_time ∧
            ((det.set c { det.getD c dOB with mitigated := true }).getD j dOB).bias =
              (det.getD j dOB).bias ∧
            ((det.set c { det.getD c dOB with mitigated := true }).getD j dOB).internal =
              (det.getD j dOB).internal := by
          intro j
          by_cases hcj : c = j
          · subst hcj
            by_cases hlt : c < det.length
            · rw [getD_set_self _ hlt]
              exact ⟨rfl, rfl, rfl, rfl, rfl, rfl, rfl⟩
            · rw [getD_set_oob _ hlt]
              exact ⟨rfl, rfl, rfl, rfl, rfl, rfl, rfl⟩
          · rw [getD_set_ne _ hcj]
            exact ⟨rfl, rfl, rfl, rfl, rfl, rfl, rfl⟩
        have hmitig : ∀ j : Nat,
            ((det.set c { det.getD c dOB with mitigated := true }).getD j dOB).mitigated
                = true ↔
              ((det.getD j dOB).mitigated = true ∨ (j = c ∧ c < det.length)) := by
          intro j
          by_cases hcj : c = j
          · subst hcj
            by_cases hlt : c < det.length
            · rw [getD_set_self _ hlt]
              simp [hlt]
            · rw [getD_set_oob _ hlt]
              simp [hlt]
          · rw [getD_set_ne _ hcj]
            have hjc : ¬ j = c := fun h => hcj h.symm
            simp [hjc]
        have hcongr : ∀ j : Nat,
            mitigCond ((det.set c { det.getD c dOB with mitigated := true }).getD j dOB)
              bar = mitigCond (det.getD j dOB) bar := by
          intro j
          exact mitigCond_congr bar (hfields j).2.2.2.2.2.1 (hfields j).1 (hfields j).2.1
        obtain ⟨ihlen, ihacc, ihfields, ihmitig⟩ :=
          ih (det.set c { det.getD c dOB with mitigated := true }) acc
        rw [List.foldl_cons, hstep]
        refine ⟨?_, ?_, ?_, ?_⟩
        · rw [ihlen, List.length_set]
        · rw [ihacc, List.filter_cons]
          simp only [hcond, Bool.not_true, Bool.false_eq_true, if_false]
          congr 1
          exact List.filter_congr fun j _ => by rw [hcongr j]
        · intro j
          obtain ⟨h1, h2, h3, h4, h5, h6, h7⟩ := ihfields j
          obtain ⟨g1, g2, g3, g4, g5, g6, g7⟩ := hfields j
          exact ⟨h1.trans g1, h2.trans g2, h3.trans g3, h4.trans g4,
            h5.trans g5, h6.trans g6, h7.trans g7⟩
        · intro j
          rw [ihmitig j, hmitig j, hcongr j, List.length_set]
          constructor
          · rintro ((h | ⟨hjc, hclen⟩) | ⟨hmem, hcnd, hlt⟩)
            · exact Or.inl h
            · subst hjc
              exact Or.inr ⟨List.mem_cons_self _ _, hcond, hclen⟩
            · exact Or.inr ⟨List.mem_cons_of_mem _ hmem, hcnd, hlt⟩
          · rintro (h | ⟨hmem, hcnd, hlt⟩)
            · exact Or.inl (Or.inl h)
            · rcases List.mem_cons.mp hmem with hjc | hmem'
              · exact Or.inl (Or.inr ⟨hjc, hjc ▸ hlt⟩)
              · exact Or.inr ⟨hmem', hcnd, hlt⟩
      · have hstep : deleteStep bar (det, acc) c = (det, acc ++ [c]) := by
          simp only [deleteStep]
          rw [if_neg hcond]
        have hcf : mitigCond (det.getD c dOB) bar = false := by
          cases hb : mitigCond (det.getD c dOB) bar
          · rfl
          · exact absurd hb hcond
        obtain ⟨ihlen, ihacc, ihfields, ihmitig⟩ := ih det (acc ++ [c])
        rw [List.foldl_cons, hstep]
        refine ⟨ihlen, ?_, ihfields, ?_⟩
        · rw [ihacc, List.filter_cons]
          have hcf' := hcf
          rw [List.getD_eq_getElem?_getD] at hcf'
          simp [hcf, hcf']
        · intro j
          rw [ihmitig j]
          constructor
          · rintro (h | ⟨hmem, hcnd, hlt⟩)
            · exact Or.inl h
            · exact Or.inr ⟨List.mem_cons_of_mem _ hmem, hcnd, hlt⟩
          · rintro (h | ⟨hmem, hcnd, hlt⟩)
            · exact Or.inl h
            · rcases List.mem_cons.mp hmem with hjc | hmem'
              · subst hjc
                exact absurd hcnd hcond
              · exact Or.inr ⟨hmem', hcnd, hlt⟩

lemma deleteOrderBlocks_spec (d : Detector) (internal : Bool) :
    (deleteOrderBlocks d internal).detected_order_blocks.length =
      d.detected_order_blocks.length ∧
    ((if internal then (deleteOrderBlocks d internal).internal_order_blocks
      else (deleteOrderBlocks d internal).swing_order_blocks) =
      (if internal then d.internal_order_blocks else d.swing_order_blocks).filter
        (fun idx => ! mitigCond (d.detected_order_blocks.getD idx dOB)
          (d.bars.getD (d.bars.length - 1) dBar))) ∧
    (∀ j : Nat,
      ((deleteOrderBlocks d internal).detected_order_blocks.getD j dOB).high =
        (d.detected_order_blocks.getD j dOB).high ∧
      ((deleteOrderBlocks d internal).detected_order_blocks.getD j dOB).low =
        (d.detected_order_blocks.getD j dOB).low ∧
      ((deleteOrderBlocks d internal).detected_order_blocks.getD j dOB).start_time =
        (d.detected_order_blocks.getD j dOB).start_time ∧
      ((deleteOrderBlocks d internal).detected_order_blocks.getD j dOB).created_time =
        (d.detected_order_blocks.getD j dOB).created_time ∧
      ((deleteOrderBlocks d internal).detected_order_blocks.getD j dOB).pivot_time =
        (d.detected_order_blocks.getD j dOB).pivot_time ∧
      ((deleteOrderBlocks d internal).detected_order_blocks.getD j dOB).bias =
        (d.detected_order_blocks.getD j dOB).bias ∧
      ((deleteOrderBlocks d internal).detected_order_blocks.getD j dOB).internal =
        (d.detected_order_blocks.getD j dOB).internal) ∧
    (∀ j : Nat,
      ((deleteOrderBlocks d internal).detected_order_blocks.getD j dOB).mitigated
          = true ↔
        ((d.detected_order_blocks.getD j dOB).mitigated = true ∨
          (j ∈ (if internal then d.internal_order_blocks else d.swing_order_blocks) ∧
            mitigCond (d.detected_order_blocks.getD j dOB)
              (d.bars.getD (d.bars.length - 1) dBar) = true ∧
            j < d.detected_order_blocks.length))) := by
  cases internal with
  | true =>
      simp only [deleteOrderBlocks, if_true]
      by_cases hl : d.internal_order_blocks.length = 0
      · rw [if_pos hl]
        rw [List.length_eq_zero] at hl
        refine ⟨rfl, by simp [hl], fun j => ⟨rfl, rfl, rfl, rfl, rfl, rfl, rfl⟩,
          fun j => by simp [hl]⟩
      · rw [if_neg hl]
        obtain ⟨hlen, hacc, hfields, hmitig⟩ :=
          deleteFold_spec (d.bars.getD (d.bars.length - 1) dBar)
            d.internal_order_blocks d.detected_order_blocks []
        exact ⟨hlen, by simpa using hacc, hfields, hmitig⟩
  | false =>
      simp only [deleteOrderBlocks, Bool.false_eq_true, if_false]
      by_cases hl : d.swing_order_blocks.length = 0
      · rw [if_pos hl]
        rw [List.length_eq_zero] at hl
        refine ⟨rfl, by simp [hl], fun j => ⟨rfl, rfl, rfl, rfl, rfl, rfl, rfl⟩,
          fun j => by simp [hl]⟩
      · rw [if_neg hl]
        obtain ⟨hlen, hacc, hfields, hmitig⟩ :=
          deleteFold_spec (d.bars.getD (d.bars.length - 1) dBar)
            d.swing_order_blocks d.detected_order_blocks []
        exact ⟨hlen, by simpa using hacc, hfields, hmitig⟩

/-! ### getD helpers -/

lemma getD_append_left {α : Type} (l1 l2 : List α) (i : Nat) (dflt : α)
    (h : i < l1.length) : (l1 ++ l2).getD i dflt = l1.getD i dflt := by
  rw [List.getD_eq_getElem?_getD, List.getElem?_append, if_pos h,
    ← List.getD_eq_getElem?_getD]

lemma getD_append_right {α : Type} (l1 l2 : List α) (i : Nat) (dflt : α)
    (h : l1.length ≤ i) :
    (l1 ++ l2).getD i dflt = l2.getD (i - l1.length) dflt := by
  rw [List.getD_eq_getElem?_getD, List.getElem?_append_right h,
    ← List.getD_eq_getElem?_getD]

lemma getD_mem {α : Type} (l : List α) (i : Nat) (dflt : α) (h : i < l.length) :
    l.getD i dflt ∈ l := by
  rw [List.getD_eq_getElem?_getD, List.getElem?_eq_getElem h]
  exact List.getElem_mem h

/-! ### Configuration and bar-history frames through a whole bar step -/

lemma displayBull_config (d : Detector) (internal : Bool) (pc cc : Rat) :
    (displayBull d internal pc cc).swing_length = d.swing_length ∧
    (displayBull d internal pc cc).internal_length = d.internal_length ∧
    (displayBull d internal pc cc).atr_period = d.atr_period ∧
    (displayBull d internal pc cc).atr_window = d.atr_window := by
  rcases displayBull_cases d internal pc cc with
    ⟨sh, ih, st, it, h | ⟨ob, pos, _, _, _, _, _, _, heq⟩⟩
  · rw [h]
    exact ⟨rfl, rfl, rfl, rfl⟩
  · rw [heq]
    cases internal <;> simp

lemma displayBear_config (d : Detector) (internal : Bool) (pc cc : Rat) :
    (displayBear d internal pc cc).swing_length = d.swing_length ∧
    (displayBear d internal pc cc).internal_length = d.internal_length ∧
    (displayBear d internal pc cc).atr_period = d.atr_period ∧
    (displayBear d internal pc cc).atr_window = d.atr_window := by
  rcases displayBear_cases d internal pc cc with
    ⟨sl, il, st, it, h | ⟨ob, pos, _, _, _, _, _, _, _, heq⟩⟩
  · rw [h]
    exact ⟨rfl, rfl, rfl, rfl⟩
  · rw [heq]
    cases internal <;> simp

lemma displayStructure_config (d : Detector) (internal : Bool) :
    (displayStructure d internal).swing_length = d.swing_length ∧
    (displayStructure d internal).internal_length = d.internal_length ∧
    (displayStructure d internal).atr_period = d.atr_period ∧
    (displayStructure d internal).atr_window = d.atr_window := by
  rw [displayStructure]
  by_cases hlen : d.bars.length < 2
  · rw [if_pos hlen]
    exact ⟨rfl, rfl, rfl, rfl⟩
  · rw [if_neg hlen]
    obtain ⟨h1, h2, h3, h4⟩ := displayBull_config d internal
      ((d.bars.getD (d.bars.length - 2) dBar).close)
      ((d.bars.getD (d.bars.length - 1) dBar).close)
    obtain ⟨g1, g2, g3, g4⟩ := displayBear_config
      (displayBull d internal ((d.bars.getD (d.bars.length - 2) dBar).close)
        ((d.bars.getD (d.bars.length - 1) dBar).close)) internal
      ((d.bars.getD (d.bars.length - 2) dBar).close)
      ((d.bars.getD (d.bars.length - 1) dBar).close)
    exact ⟨g1.trans h1, g2.trans h2, g3.trans h3, g4.trans h4⟩

lemma displayStructure_bars (d : Detector) (internal : Bool) :
    (displayStructure d internal).bars = d.bars := by
  obtain ⟨news, hs, _⟩ := displayStructure_step d internal
  exact hs.2.2.2.2.2.2.1

lemma processBar_bars (d : Detector) (bar : Bar) :
    (processBar d bar).bars = d.bars ++ [bar] := by
  simp only [processBar]
  rw [(deleteOrderBlocks_frame _ false).1, (deleteOrderBlocks_frame _ true).1,
    displayStructure_bars, displayStructure_bars, updateStructure_bars,
    updateStructure_bars]
  exact (appendBar_frame d bar).1

lemma processBar_config (d : Detector) (bar : Bar) :
    (processBar d bar).swing_length = d.swing_length ∧
    (processBar d bar).internal_length = d.internal_length ∧
    (processBar d bar).atr_period = d.atr_period ∧
    (processBar d bar).max_order_blocks = d.max_order_blocks := by
  simp only [processBar]
  obtain ⟨n1, hs1, _⟩ := displayStructure_step (updateStructure (updateStructure
    (appendBar d bar) (appendBar d bar).swing_length false)
    (updateStructure (appendBar d bar) (appendBar d bar).swing_length
      false).internal_length true) true
  obtain ⟨n2, hs2, _⟩ := displayStructure_step (displayStructure (updateStructure
    (updateStructure (appendBar d bar) (appendBar d bar).swing_length false)
    (updateStructure (appendBar d bar) (appendBar d bar).swing_length
      false).internal_length true) true) false
  refine ⟨?_, ?_, ?_, ?_⟩
  · rw [(deleteOrderBlocks_frame _ false).2.2.2.2.1,
      (deleteOrderBlocks_frame _ true).2.2.2.2.1,
      (displayStructure_config _ false).1, (displayStructure_config _ true).1,
      updateStructure_swing_length, updateStructure_swing_length]
    exact (appendBar_frame d bar).2.2.2.2.2.1
  · rw [(deleteOrderBlocks_frame _ false).2.2.2.2.2.1,
      (deleteOrderBlocks_frame _ true).2.2.2.2.2.1,
      (displayStructure_config _ false).2.1, (displayStructure_config _ true).2.1,
      updateStructure_internal_length, updateStructure_internal_length]
    exact (appendBar_frame d bar).2.2.2.2.2.2.1
  · rw [(deleteOrderBlocks_frame _ false).2.2.2.2.2.2,
      (deleteOrderBlocks_frame _ true).2.2.2.2.2.2,
      (displayStructure_config _ false).2.2.1, (displayStructure_config _ true).2.2.1,
      updateStructure_atr_period, updateStructure_atr_period]
    exact (appendBar_frame d bar).2.2.2.2.2.2.2
  · rw [(deleteOrderBlocks_frame _ false).2.2.2.1,
      (deleteOrderBlocks_frame _ true).2.2.2.1, hs2.2.2.2.2.2.2.2.2.2.1,
      hs1.2.2.2.2.2.2.2.2.2.1, updateStructure_max_order_blocks,
      updateStructure_max_order_blocks]
    exact (appendBar_frame d bar).2.2.2.2.1

lemma processBar_detected_length_mono (d : Detector) (bar : Bar) :
    d.detected_order_blocks.length ≤
      (processBar d bar).detected_order_blocks.length := by
  simp only [processBar]
  obtain ⟨n1, hs1, _⟩ := displayStructure_step (updateStructure (updateStructure
    (appendBar d bar) (appendBar d bar).swing_length false)
    (updateStructure (appendBar d bar) (appendBar d bar).swing_length
      false).internal_length true) true
  obtain ⟨n2, hs2, _⟩ := displayStructure_step (displayStructure (updateStructure
    (updateStructure (appendBar d bar) (appendBar d bar).swing_length false)
    (updateStructure (appendBar d bar) (appendBar d bar).swing_length
      false).internal_length true) true) false
  rw [(deleteOrderBlocks_spec _ false).1, (deleteOrderBlocks_spec _ true).1,
    hs2.1, hs1.1, List.length_append, List.length_append,
    updateStructure_detected_order_blocks, updateStructure_detected_order_blocks]
  have : (appendBar d bar).detected_order_blocks = d.detected_order_blocks :=
    (appendBar_frame d bar).2.1
  rw [this]
  omega

/-- C9: `process` accumulates across calls — the state after `process s1`
fed `s2` is exactly the state of `process (s1 ++ s2)` on the original
instance (so two successive calls are equivalent to one concatenated call),
the returned list is the full chronological record of the final state, and
the record can only grow from one call to the next. -/
theorem process_accumulates (d : Detector) (s1 s2 : List Bar) :
    process (process d s1).1 s2 = process d (s1 ++ s2) ∧
    (process d s1).2 = (process d s1).1.detected_order_blocks ∧
    (process d s1).2.length ≤ (process d (s1 ++ s2)).2.length := by
  refine ⟨?_, rfl, ?_⟩
  · simp only [process, List.foldl_append]
  · show (s1.foldl processBar d).detected_order_blocks.length ≤
      ((s1 ++ s2).foldl processBar d).detected_order_blocks.length
    rw [List.foldl_append]
    generalize s1.foldl processBar d = e
    induction s2 generalizing e with
    | nil => exact le_rfl
    | cons b bs ih =>
        rw [List.foldl_cons]
        exact le_trans (processBar_detected_length_mono e b) (ih (processBar e b))

/-- C2: in the leg update of `_update_structure`, the bearish test
`high[anchor] > max(high[anchor+1..i])` is decided first: whenever it holds
— in particular when the bullish test would hold as well — the resulting
leg for that lookback is bearish (`0`). -/
theorem update_structure_bearish_first (d : Detector) (size : Nat) (internal : Bool)
    (hsize : 0 < size) (hlen : size < d.bars.length)
    (hbear : (d.bars.getD (d.bars.length - 1 - size) dBar).high >
      listMax ((d.bars.drop (d.bars.length - 1 - size + 1)).map Bar.high)) :
    (updateStructure d size internal).legs size = 0 := by
  simp only [updateStructure]
  rw [if_neg (by omega : ¬ d.bars.length ≤ size)]
  have hsub : ¬ (d.bars.drop (d.bars.length - 1 - size + 1)).length = 0 := by
    rw [List.length_drop]
    omega
  rw [if_neg hsub, if_pos hbear]
  repeat' split
  all_goals simp

def wBarA : Bar := ⟨0, 0, 10, 1, 5, 0⟩

def wBarB : Bar := ⟨1, 0, 5, 2, 4, 0⟩

def wD2 : Detector := { initialDetector 5 4 200 100 with bars := [wBarA, wBarB] }

/-- Witness for C2 on a two-bar state whose anchor bar satisfies both the
bearish and the bullish condition. -/
theorem update_structure_bearish_first_witness :
    ((0 : Nat) < 1 ∧ 1 < wD2.bars.length ∧
      (wD2.bars.getD (wD2.bars.length - 1 - 1) dBar).high >
        listMax ((wD2.bars.drop (wD2.bars.length - 1 - 1 + 1)).map Bar.high) ∧
      (wD2.bars.getD (wD2.bars.length - 1 - 1) dBar).low <
        listMin ((wD2.bars.drop (wD2.bars.length - 1 - 1 + 1)).map Bar.low)) ∧
    (updateStructure wD2 1 false).legs 1 = 0 :=
  ⟨⟨by decide, by decide, by decide, by decide⟩,
    update_structure_bearish_first wD2 1 false (by decide) (by decide) (by decide)⟩

/-- The true-range window as it stands right after ingesting `bar`
(the deque contents `_append_bar` averages). -/
def updated_atr_window (d : Detector) (bar : Bar) : List Rat :=
  takeLast d.atr_period (d.atr_window ++ [true_range bar d.bars.getLast?])

lemma updated_atr_window_length (d : Detector) (bar : Bar) (hp : 0 < d.atr_period) :
    (updated_atr_window d bar).length ≠ 0 := by
  rw [updated_atr_window, takeLast, List.length_drop, List.length_append]
  simp only [List.length_singleton]
  omega

lemma true_range_nonneg (bar : Bar) (prev : Option Bar) (hb : bar.low ≤ bar.high) :
    0 ≤ true_range bar prev := by
  cases prev with
  | none =>
      simp only [true_range]
      linarith
  | some p =>
      simp only [true_range]
      have : (0 : Rat) ≤ bar.high - bar.low := by linarith
      exact le_trans this (le_max_left _ _)

lemma sub_le_true_range (bar : Bar) (prev : Option Bar) :
    bar.high - bar.low ≤ true_range bar prev := by
  cases prev with
  | none => simp [true_range]
  | some p => exact le_max_left _ _

lemma true_range_mem_updated (d : Detector) (bar : Bar) (hp : 0 < d.atr_period) :
    true_range bar d.bars.getLast? ∈ updated_atr_window d bar := by
  rw [updated_atr_window, takeLast]
  rw [List.drop_append_of_le_length (by simp; omega)]
  exact List.mem_append_right _ (List.mem_singleton_self _)

lemma updated_atr_window_nonneg (d : Detector) (bar : Bar)
    (hw : ∀ x ∈ d.atr_window, 0 ≤ x) (hb : bar.low ≤ bar.high) :
    ∀ x ∈ updated_atr_window d bar, 0 ≤ x := by
  intro x hx
  rw [updated_atr_window, takeLast] at hx
  rcases List.mem_append.mp (List.mem_of_mem_drop hx) with h | h
  · exact hw x h
  · rw [List.mem_singleton] at h
    subst h
    exact true_range_nonneg bar _ hb

/-- C4: a bar is classified high-volatility exactly when its raw range is at
least twice the rolling true-range mean (threshold inclusive); the swap of
the parsed extremes is exactly the high-volatility case. -/
theorem append_bar_high_volatility (d : Detector) (bar : Bar)
    (hp : 0 < d.atr_period) (hw : ∀ x ∈ d.atr_window, 0 ≤ x)
    (hb : bar.low ≤ bar.high) :
    (appendBar d bar).parsed_highs = d.parsed_highs ++
      [if bar.high - bar.low ≥
          2 * ((updated_atr_window d bar).sum /
            ((updated_atr_window d bar).length : Rat))
        then bar.low else bar.high] ∧
    (appendBar d bar).parsed_lows = d.parsed_lows ++
      [if bar.high - bar.low ≥
          2 * ((updated_atr_window d bar).sum /
            ((updated_atr_window d bar).length : Rat))
        then bar.high else bar.low] ∧
    (appendBar d bar).atr_window = updated_atr_window d bar := by
  have hlen := updated_atr_window_length d bar hp
  have havg : average (takeLast d.atr_period
      (d.atr_window ++ [true_range bar d.bars.getLast?])) =
      some ((updated_atr_window d bar).sum /
        ((updated_atr_window d bar).length : Rat)) := by
    rw [average, if_neg (by rw [← updated_atr_window] at *; exact hlen)]
    rw [← updated_atr_window]
  by_cases hz : (updated_atr_window d bar).sum /
      ((updated_atr_window d bar).length : Rat) = 0
  · have hsum0 : (updated_atr_window d bar).sum = 0 := by
      rcases div_eq_zero_iff.mp hz with h0 | h0
      · exact h0
      · exact absurd h0 (by exact_mod_cast hlen)
    have htrle : true_range bar d.bars.getLast? ≤ (updated_atr_window d bar).sum :=
      List.single_le_sum (updated_atr_window_nonneg d bar hw hb) _
        (true_range_mem_updated d bar hp)
    have hl0 : bar.high - bar.low = 0 := by
      have h1 : bar.high - bar.low ≤ true_range bar d.bars.getLast? :=
        sub_le_true_range bar _
      have h2 : (0 : Rat) ≤ bar.high - bar.low := by linarith
      linarith [hsum0 ▸ htrle]
    simp only [appendBar, havg, hz, hl0]
    norm_num
    rfl
  · simp only [appendBar, havg]
    rw [if_neg hz]
    simp only [ge_iff_le, decide_eq_true_eq]
    exact ⟨trivial, trivial, rfl⟩

def wBarC : Bar := ⟨0, 0, 12, 10, 11, 0⟩

/-- Witness for C4 on a fresh detector and a calm bar: the swap does not
trigger and the parsed high is the raw high. -/
theorem append_bar_high_volatility_witness :
    (0 < (initialDetector 5 4 200 100).atr_period ∧
      (∀ x ∈ (initialDetector 5 4 200 100).atr_window, (0 : Rat) ≤ x) ∧
      wBarC.low ≤ wBarC.high) ∧
    (appendBar (initialDetector 5 4 200 100) wBarC).parsed_highs = [wBarC.high] :=
  ⟨⟨by decide, by decide, by decide⟩, by
    have h := append_bar_high_volatility (initialDetector 5 4 200 100) wBarC
      (by decide) (by decide) (by decide)
    rw [h.1]
    with_unfolding_all decide⟩

lemma getD_drop {α : Type} (l : List α) (a j : Nat) (dflt : α) :
    (l.drop a).getD j dflt = l.getD (a + j) dflt := by
  rw [List.getD_eq_getElem?_getD, List.getElem?_drop, ← List.getD_eq_getElem?_getD]

lemma getD_indexOfQ {l : List Rat} {v : Rat} (h : v ∈ l) :
    l.getD (indexOfQ l v) 0 = v := by
  rw [List.getD_eq_getElem?_getD, getElem?_indexOfQ h]
  rfl

lemma getD_ne_of_lt_indexOfQ {l : List Rat} {v : Rat} {k : Nat}
    (hv : v ∈ l) (hk : k < indexOfQ l v) : l.getD k 0 ≠ v := by
  have hkl : k < l.length := lt_trans hk (indexOfQ_lt_length hv)
  have hne := indexOfQ_first (l := l) (v := v) k hk
  rw [List.getD_eq_getElem?_getD, List.getElem?_eq_getElem hkl, Option.getD_some]
  intro hEq
  exact hne (by rw [List.getElem?_eq_getElem hkl, hEq])

/-- C3: on a breakout whose pivot is anchored at `a`, the origin position is
searched over the parsed bars of the inclusive segment `[a, i]` (`i` the
current last bar): for a bullish break the first position attaining the
minimum `parsed_low`, for a bearish break the first position attaining the
maximum `parsed_high`; the created block carries that bar's parsed extremes
and timestamp. -/
theorem store_order_block_origin (d : Detector) (p : Pivot) (internal : Bool)
    (bias : Bias) (a : Nat) (hpi : p.bar_index = some a) (ha : a < d.bars.length)
    (hph : d.parsed_highs.length = d.bars.length)
    (hpl : d.parsed_lows.length = d.bars.length) :
    ∃ pos : Nat, a ≤ pos ∧ pos < d.bars.length ∧
      (∃ ob : OrderBlock,
        (storeOrderBlock d p internal bias).detected_order_blocks =
          d.detected_order_blocks ++ [ob] ∧
        ob.high = d.parsed_highs.getD pos 0 ∧
        ob.low = d.parsed_lows.getD pos 0 ∧
        ob.start_time = (d.bars.getD pos dBar).timestamp) ∧
      (bias = .BULLISH →
        (∀ k, a ≤ k → k < d.bars.length →
          d.parsed_lows.getD pos 0 ≤ d.parsed_lows.getD k 0) ∧
        (∀ k, a ≤ k → k < pos → d.parsed_lows.getD pos 0 < d.parsed_lows.getD k 0)) ∧
      (bias = .BEARISH →
        (∀ k, a ≤ k → k < d.bars.length →
          d.parsed_highs.getD k 0 ≤ d.parsed_highs.getD pos 0) ∧
        (∀ k, a ≤ k → k < pos →
          d.parsed_highs.getD k 0 < d.parsed_highs.getD pos 0)) := by
  have htake_l : d.parsed_lows.take d.bars.length = d.parsed_lows := by
    rw [← hpl, List.take_length]
  have htake_h : d.parsed_highs.take d.bars.length = d.parsed_highs := by
    rw [← hph, List.take_length]
  cases bias with
  | BULLISH =>
      have hseg_len : (d.parsed_lows.drop a).length = d.parsed_lows.length - a := by
        rw [List.length_drop]
      have hne : d.parsed_lows.drop a ≠ [] := by
        intro h
        have := congrArg List.length h
        rw [hseg_len] at this
        simp at this
        omega
      have hmin_mem := listMin_mem _ hne
      have hofflt := indexOfQ_lt_length hmin_mem
      refine ⟨a + indexOfQ (d.parsed_lows.drop a) (listMin (d.parsed_lows.drop a)),
        by omega, by omega, ?_, ?_, ?_⟩
      · refine ⟨⟨d.parsed_highs.getD
            (a + indexOfQ (d.parsed_lows.drop a) (listMin (d.parsed_lows.drop a))) 0,
          d.parsed_lows.getD
            (a + indexOfQ (d.parsed_lows.drop a) (listMin (d.parsed_lows.drop a))) 0,
          (d.bars.getD
            (a + indexOfQ (d.parsed_lows.drop a)
              (listMin (d.parsed_lows.drop a))) dBar).timestamp,
          (d.bars.getD (d.bars.length - 1) dBar).timestamp,
          p.bar_time.getD (d.bars.getD
            (a + indexOfQ (d.parsed_lows.drop a)
              (listMin (d.parsed_lows.drop a))) dBar).timestamp,
          .BULLISH, internal, false⟩, ?_, rfl, rfl, rfl⟩
        simp only [storeOrderBlock, hpi]
        rw [if_neg (by omega : ¬ d.bars.length ≤ a), htake_l]
        rw [if_neg (by
          intro h
          rw [List.length_eq_zero] at h
          exact hne h)]
        cases internal <;> rfl
      · intro _
        constructor
        · intro k hak hk
          have hpos : d.parsed_lows.getD
              (a + indexOfQ (d.parsed_lows.drop a) (listMin (d.parsed_lows.drop a))) 0 =
              listMin (d.parsed_lows.drop a) := by
            rw [← getD_drop]
            exact getD_indexOfQ hmin_mem
          rw [hpos]
          have : d.parsed_lows.getD k 0 = (d.parsed_lows.drop a).getD (k - a) 0 := by
            rw [getD_drop]
            congr 1
            omega
          rw [this]
          exact listMin_le _ _ (getD_mem _ _ _ (by rw [hseg_len]; omega))
        · intro k hak hk
          have hpos : d.parsed_lows.getD
              (a + indexOfQ (d.parsed_lows.drop a) (listMin (d.parsed_lows.drop a))) 0 =
              listMin (d.parsed_lows.drop a) := by
            rw [← getD_drop]
            exact getD_indexOfQ hmin_mem
          rw [hpos]
          have hkd : d.parsed_lows.getD k 0 = (d.parsed_lows.drop a).getD (k - a) 0 := by
            rw [getD_drop]
            congr 1
            omega
          rw [hkd]
          have hmem : (d.parsed_lows.drop a).getD (k - a) 0 ∈ d.parsed_lows.drop a :=
            getD_mem _ _ _ (by omega)
          have hge := listMin_le _ _ hmem
          have hne' := getD_ne_of_lt_indexOfQ hmin_mem
            (show k - a < indexOfQ (d.parsed_lows.drop a)
              (listMin (d.parsed_lows.drop a)) by omega)
          exact lt_of_le_of_ne hge (fun h => hne' h.symm)
      · intro h
        cases h
  | BEARISH =>
      have hseg_len : (d.parsed_highs.drop a).length = d.parsed_highs.length - a := by
        rw [List.length_drop]
      have hne : d.parsed_highs.drop a ≠ [] := by
        intro h
        have := congrArg List.length h
        rw [hseg_len] at this
        simp at this
        omega
      have hmax_mem := listMax_mem _ hne
      have hofflt := indexOfQ_lt_length hmax_mem
      refine ⟨a + indexOfQ (d.parsed_highs.drop a) (listMax (d.parsed_highs.drop a)),
        by omega, by omega, ?_, ?_, ?_⟩
      · refine ⟨⟨d.parsed_highs.getD
            (a + indexOfQ (d.parsed_highs.drop a) (listMax (d.parsed_highs.drop a))) 0,
          d.parsed_lows.getD
            (a + indexOfQ (d.parsed_highs.drop a) (listMax (d.parsed_highs.drop a))) 0,
          (d.bars.getD
            (a + indexOfQ (d.parsed_highs.drop a)
              (listMax (d.parsed_highs.drop a))) dBar).timestamp,
          (d.bars.getD (d.bars.length - 1) dBar).timestamp,
          p.bar_time.getD (d.bars.getD
            (a + indexOfQ (d.parsed_highs.drop a)
              (listMax (d.parsed_highs.drop a))) dBar).timestamp,
          .BEARISH, internal, false⟩, ?_, rfl, rfl, rfl⟩
        simp only [storeOrderBlock, hpi]
        rw [if_neg (by omega : ¬ d.bars.length ≤ a), htake_h]
        rw [if_neg (by
          intro h
          rw [List.length_eq_zero] at h
          exact hne h)]
        cases internal <;> rfl
      · intro h
        cases h
      · intro _
        constructor
        · intro k hak hk
          have hpos : d.parsed_highs.getD
              (a + indexOfQ (d.parsed_highs.drop a) (listMax (d.parsed_highs.drop a))) 0 =
              listMax (d.parsed_highs.drop a) := by
            rw [← getD_drop]
            exact getD_indexOfQ hmax_mem
          rw [hpos]
          have : d.parsed_highs.getD k 0 = (d.parsed_highs.drop a).getD (k - a) 0 := by
            rw [getD_drop]
            congr 1
            omega
          rw [this]
          exact le_listMax _ _ (getD_mem _ _ _ (by rw [hseg_len]; omega))
        · intro k hak hk
          have hpos : d.parsed_highs.getD
              (a + indexOfQ (d.parsed_highs.drop a) (listMax (d.parsed_highs.drop a))) 0 =
              listMax (d.parsed_highs.drop a) := by
            rw [← getD_drop]
            exact getD_indexOfQ hmax_mem
          rw [hpos]
          have hkd : d.parsed_highs.getD k 0 = (d.parsed_highs.drop a).getD (k - a) 0 := by
            rw [getD_drop]
            congr 1
            omega
          rw [hkd]
          have hmem : (d.parsed_highs.drop a).getD (k - a) 0 ∈ d.parsed_highs.drop a :=
            getD_mem _ _ _ (by omega)
          have hle := le_listMax _ _ hmem
          have hne' := getD_ne_of_lt_indexOfQ hmax_mem
            (show k - a < indexOfQ (d.parsed_highs.drop a)
              (listMax (d.parsed_highs.drop a)) by omega)
          exact lt_of_le_of_ne hle hne'

def wD3 : Detector :=
  { initialDetector 5 4 200 100 with
    bars := [wBarA, wBarB]
    parsed_highs := [10, 5]
    parsed_lows := [1, 0] }

def wP3 : Pivot := ⟨some 5, none, false, some 0, some 0⟩

/-- Witness for C3 on a concrete two-bar state with a pivot anchored at 0. -/
theorem store_order_block_origin_witness :
    (wP3.bar_index = some 0 ∧ 0 < wD3.bars.length ∧
      wD3.parsed_highs.length = wD3.bars.length ∧
      wD3.parsed_lows.length = wD3.bars.length) ∧
    (∃ pos : Nat, 0 ≤ pos ∧ pos < wD3.bars.length ∧
      (∃ ob : OrderBlock,
        (storeOrderBlock wD3 wP3 false .BULLISH).detected_order_blocks =
          wD3.detected_order_blocks ++ [ob] ∧
        ob.high = wD3.parsed_highs.getD pos 0 ∧
        ob.low = wD3.parsed_lows.getD pos 0 ∧
        ob.start_time = (wD3.bars.getD pos dBar).timestamp) ∧
      (Bias.BULLISH = Bias.BULLISH →
        (∀ k, 0 ≤ k → k < wD3.bars.length →
          wD3.parsed_lows.getD pos 0 ≤ wD3.parsed_lows.getD k 0) ∧
        (∀ k, 0 ≤ k → k < pos →
          wD3.parsed_lows.getD pos 0 < wD3.parsed_lows.getD k 0)) ∧
      (Bias.BULLISH = Bias.BEARISH →
        (∀ k, 0 ≤ k → k < wD3.bars.length →
          wD3.parsed_highs.getD k 0 ≤ wD3.parsed_highs.getD pos 0) ∧
        (∀ k, 0 ≤ k → k < pos →
          wD3.parsed_highs.getD k 0 < wD3.parsed_highs.getD pos 0))) :=
  ⟨⟨rfl, by decide, by decide, by decide⟩,
    store_order_block_origin wD3 wP3 false .BULLISH 0 rfl (by decide)
      (by decide) (by decide)⟩

/-! ### Active-container caps (claim C6) -/

/-- Both active containers respect the configured cap. -/
def CapInv (d : Detector) : Prop :=
  d.internal_order_blocks.length ≤ d.max_order_blocks ∧
  d.swing_order_blocks.length ≤ d.max_order_blocks

lemma processBar_capInv (d : Detector) (bar : Bar) (h : CapInv d) :
    CapInv (processBar d bar) := by
  obtain ⟨hi, hs⟩ := h
  have hmax := (processBar_config d bar).2.2.2
  simp only [processBar] at hmax ⊢
  set d1 := appendBar d bar with hd1
  set d2 := updateStructure d1 d1.swing_length false with hd2
  set d3 := updateStructure d2 d2.internal_length true with hd3
  set d4 := displayStructure d3 true with hd4
  set d5 := displayStructure d4 false with hd5
  set d6 := deleteOrderBlocks d5 true with hd6
  have h3i : d3.internal_order_blocks = d.internal_order_blocks := by
    rw [hd3, updateStructure_internal_order_blocks, hd2,
      updateStructure_internal_order_blocks, hd1]
    exact (appendBar_frame d bar).2.2.1
  have h3s : d3.swing_order_blocks = d.swing_order_blocks := by
    rw [hd3, updateStructure_swing_order_blocks, hd2,
      updateStructure_swing_order_blocks, hd1]
    exact (appendBar_frame d bar).2.2.2.1
  have h3m : d3.max_order_blocks = d.max_order_blocks := by
    rw [hd3, updateStructure_max_order_blocks, hd2,
      updateStructure_max_order_blocks, hd1]
    exact (appendBar_frame d bar).2.2.2.2.1
  obtain ⟨n1, hs1, _⟩ := displayStructure_step d3 true
  rw [← hd4] at hs1
  obtain ⟨n2, hs2, _⟩ := displayStructure_step d4 false
  rw [← hd5] at hs2
  have h4m : d4.max_order_blocks = d.max_order_blocks := by
    rw [hs1.2.2.2.2.2.2.2.2.2.1, h3m]
  have h4i : d4.internal_order_blocks.length ≤ d.max_order_blocks := by
    have := hs1.2.2.2.2.1
    rw [h3i, h3m] at this
    exact le_trans this (max_le hi le_rfl)
  have h4s : d4.swing_order_blocks.length ≤ d.max_order_blocks := by
    have := hs1.2.2.2.2.2.1
    rw [h3s, h3m] at this
    exact le_trans this (max_le hs le_rfl)
  have h5i : d5.internal_order_blocks.length ≤ d.max_order_blocks := by
    have := hs2.2.2.2.2.1
    rw [h4m] at this
    exact le_trans this (max_le h4i le_rfl)
  have h5s : d5.swing_order_blocks.length ≤ d.max_order_blocks := by
    have := hs2.2.2.2.2.2.1
    rw [h4m] at this
    exact le_trans this (max_le h4s le_rfl)
  have h6i : d6.internal_order_blocks.length ≤ d.max_order_blocks := by
    have hfi := (deleteOrderBlocks_spec d5 true).2.1
    simp only [if_true] at hfi
    rw [hd6, hfi]
    exact le_trans (List.length_filter_le _ _) h5i
  have h6s : d6.swing_order_blocks = d5.swing_order_blocks := by
    rw [hd6]
    exact (deleteOrderBlocks_other_container d5).1
  constructor
  · rw [hmax, (deleteOrderBlocks_other_container d6).2]
    exact h6i
  · rw [hmax]
    have hfs := (deleteOrderBlocks_spec d6 false).2.1
    simp only [Bool.false_eq_true, if_false] at hfs
    rw [hfs]
    refine le_trans (List.length_filter_le _ _) ?_
    rw [h6s]
    exact h5s

/-- C6: after any number of processed bars each scope's active container
holds at most `max_order_blocks` entries (given it starts within the cap,
as a fresh detector does), the cap setting itself never changes, the full
chronological record is never trimmed, and a store event prepends the new
block's position to its scope's container and drops the tail beyond the
cap while appending the block to the permanent record. -/
theorem active_containers_capped (d : Detector) (bars : List Bar)
    (h : d.internal_order_blocks.length ≤ d.max_order_blocks ∧
      d.swing_order_blocks.length ≤ d.max_order_blocks) :
    ((process d bars).1.internal_order_blocks.length ≤
        (process d bars).1.max_order_blocks ∧
      (process d bars).1.swing_order_blocks.length ≤
        (process d bars).1.max_order_blocks) ∧
    (process d bars).1.max_order_blocks = d.max_order_blocks ∧
    d.detected_order_blocks.length ≤
      (process d bars).1.detected_order_blocks.length ∧
    (∀ (e : Detector) (p : Pivot) (internal : Bool) (bias : Bias),
      storeOrderBlock e p internal bias = e ∨
      ∃ ob : OrderBlock,
        (storeOrderBlock e p internal bias).detected_order_blocks =
          e.detected_order_blocks ++ [ob] ∧
        (internal = true →
          (storeOrderBlock e p internal bias).internal_order_blocks =
            (e.detected_order_blocks.length :: e.internal_order_blocks).take
              e.max_order_blocks ∧
          (storeOrderBlock e p internal bias).swing_order_blocks =
            e.swing_order_blocks) ∧
        (internal = false →
          (storeOrderBlock e p internal bias).swing_order_blocks =
            (e.detected_order_blocks.length :: e.swing_order_blocks).take
              e.max_order_blocks ∧
          (storeOrderBlock e p internal bias).internal_order_blocks =
            e.internal_order_blocks)) := by
  refine ⟨?_, ?_, ?_, ?_⟩
  · show CapInv (bars.foldl processBar d)
    induction bars generalizing d with
    | nil => exact h
    | cons b bs ih =>
        rw [List.foldl_cons]
        exact ih (processBar d b) (processBar_capInv d b h)
  · show (bars.foldl processBar d).max_order_blocks = d.max_order_blocks
    induction bars generalizing d with
    | nil => rfl
    | cons b bs ih =>
        rw [List.foldl_cons, ih (processBar d b) (processBar_capInv d b h),
          (processBar_config d b).2.2.2]
  · show d.detected_order_blocks.length ≤
      (bars.foldl processBar d).detected_order_blocks.length
    induction bars generalizing d with
    | nil => exact le_rfl
    | cons b bs ih =>
        rw [List.foldl_cons]
        exact le_trans (processBar_detected_length_mono d b)
          (ih (processBar d b) (processBar_capInv d b h))
  · intro e p internal bias
    rcases storeOrderBlock_cases e p internal bias with
      heq | ⟨ob, pos, _, _, _, _, _, _, heq⟩
    · exact Or.inl heq
    · refine Or.inr ⟨ob, ?_, ?_, ?_⟩ <;> rw [heq] <;> cases internal <;> simp

/-- Witness for C6 on a fresh detector and a short bar list. -/
theorem active_containers_capped_witness :
    ((initialDetector 5 4 200 100).internal_order_blocks.length ≤
        (initialDetector 5 4 200 100).max_order_blocks ∧
      (initialDetector 5 4 200 100).swing_order_blocks.length ≤
        (initialDetector 5 4 200 100).max_order_blocks) ∧
    (process (initialDetector 5 4 200 100) [wBarA, wBarB]).1.max_order_blocks =
      (initialDetector 5 4 200 100).max_order_blocks :=
  ⟨⟨by decide, by decide⟩,
    (active_containers_capped (initialDetector 5 4 200 100) [wBarA, wBarB]
      ⟨by decide, by decide⟩).2.1⟩

/-! ### Rising markets never yield bearish blocks (claim C8) -/

lemma mem_getD {α : Type} (l : List α) (dflt : α) (x : α) (h : x ∈ l) :
    ∃ j, j < l.length ∧ l.getD j dflt = x := by
  rw [List.mem_iff_getElem] at h
  obtain ⟨n, hn, he⟩ := h
  refine ⟨n, hn, ?_⟩
  rw [List.getD_eq_getElem?_getD, List.getElem?_eq_getElem hn]
  exact he

lemma deleteOrderBlocks_bias_mem (d : Detector) (internal : Bool) :
    ∀ ob ∈ (deleteOrderBlocks d internal).detected_order_blocks,
      ∃ ob0, ob0 ∈ d.detected_order_blocks ∧ ob.bias = ob0.bias := by
  intro ob hob
  obtain ⟨j, hj, hEq⟩ := mem_getD _ dOB ob hob
  have hlen := (deleteOrderBlocks_spec d internal).1
  have hbias := ((deleteOrderBlocks_spec d internal).2.2.1 j).2.2.2.2.2.1
  refine ⟨d.detected_order_blocks.getD j dOB, getD_mem _ _ _ (by omega), ?_⟩
  rw [← hEq]
  exact hbias

lemma processBar_bullish_only (d : Detector) (b : Bar)
    (hprev : ∀ x ∈ d.bars.getLast?, x.close < b.close)
    (hall : ∀ ob ∈ d.detected_order_blocks, ob.bias = .BULLISH) :
    ∀ ob ∈ (processBar d b).detected_order_blocks, ob.bias = .BULLISH := by
  simp only [processBar]
  set d1 := appendBar d b with hd1
  set d2 := updateStructure d1 d1.swing_length false with hd2
  set d3 := updateStructure d2 d2.internal_length true with hd3
  set d4 := displayStructure d3 true with hd4
  set d5 := displayStructure d4 false with hd5
  set d6 := deleteOrderBlocks d5 true with hd6
  have h3d : d3.detected_order_blocks = d.detected_order_blocks := by
    rw [hd3, updateStructure_detected_order_blocks, hd2,
      updateStructure_detected_order_blocks, hd1]
    exact (appendBar_frame d b).2.1
  have h3b : d3.bars = d.bars ++ [b] := by
    rw [hd3, updateStructure_bars, hd2, updateStructure_bars, hd1]
    exact (appendBar_frame d b).1
  have hnodrop : ∀ (e : Detector) (internal : Bool),
      e.bars = d.bars ++ [b] →
      ∀ ob ∈ (displayStructure e internal).detected_order_blocks,
        ob ∈ e.detected_order_blocks ∨ ob.bias = .BULLISH := by
    intro e internal heb ob hob
    obtain ⟨news, hs, hbear⟩ := displayStructure_step e internal
    rw [hs.1] at hob
    rcases List.mem_append.mp hob with hold | hnew
    · exact Or.inl hold
    · right
      cases hbias : ob.bias with
      | BULLISH => rfl
      | BEARISH =>
          exfalso
          obtain ⟨hlen2, hlt⟩ := hbear ob hnew hbias
          rw [heb] at hlen2 hlt
          have hblen : 1 ≤ d.bars.length := by
            rw [List.length_append, List.length_singleton] at hlen2
            omega
          have hcur : (d.bars ++ [b]).getD ((d.bars ++ [b]).length - 1) dBar = b := by
            rw [List.length_append, List.length_singleton]
            rw [getD_append_right _ _ _ _ (by omega)]
            simp
          have hprev' : (d.bars ++ [b]).getD ((d.bars ++ [b]).length - 2) dBar =
              d.bars.getD (d.bars.length - 1) dBar := by
            rw [List.length_append, List.length_singleton]
            rw [getD_append_left _ _ _ _ (by omega)]
            congr 1
          rw [hcur, hprev'] at hlt
          have hxl : d.bars.getLast? = some (d.bars.getD (d.bars.length - 1) dBar) := by
            have h1 : d.bars.length - 1 < d.bars.length := by omega
            rw [List.getLast?_eq_getElem?, List.getElem?_eq_getElem h1,
              List.getD_eq_getElem?_getD, List.getElem?_eq_getElem h1,
              Option.getD_some]
          have := hprev _ (by rw [hxl]; rfl)
          exact absurd hlt (not_lt.mpr (le_of_lt this))
  have h4all : ∀ ob ∈ d4.detected_order_blocks, ob.bias = .BULLISH := by
    intro ob hob
    rcases hnodrop d3 true h3b ob hob with h | h
    · rw [h3d] at h
      exact hall ob h
    · exact h
  have h4b : d4.bars = d.bars ++ [b] := by
    rw [hd4, displayStructure_bars, h3b]
  have h5all : ∀ ob ∈ d5.detected_order_blocks, ob.bias = .BULLISH := by
    intro ob hob
    rcases hnodrop d4 false h4b ob hob with h | h
    · exact h4all ob h
    · exact h
  intro ob hob
  obtain ⟨ob6, hob6, hbias6⟩ := deleteOrderBlocks_bias_mem d6 false ob hob
  obtain ⟨ob5, hob5, hbias5⟩ := deleteOrderBlocks_bias_mem d5 true ob6 hob6
  rw [hbias6, hbias5]
  exact h5all ob5 hob5

lemma foldl_bullish_only (bs : List Bar) : ∀ d : Detector,
    (∀ ob ∈ d.detected_order_blocks, ob.bias = .BULLISH) →
    List.Chain' (fun a b => a.close < b.close) (d.bars ++ bs) →
    ∀ ob ∈ (bs.foldl processBar d).detected_order_blocks, ob.bias = .BULLISH := by
  induction bs with
  | nil =>
      intro d hall _
      simpa using hall
  | cons b rest ih =>
      intro d hall hchain
      rw [List.foldl_cons]
      apply ih (processBar d b)
      · refine processBar_bullish_only d b ?_ hall
        obtain ⟨_, _, hj⟩ := List.chain'_append.mp hchain
        intro x hx
        exact hj x hx b (by simp)
      · rw [processBar_bars, List.append_assoc]
        simpa using hchain

/-- C8: on a bar sequence with strictly rising closes (so no close ever
falls back below an established pivot-low level) the detector — at any
configuration, in both scopes — emits no bearish order block. -/
theorem rising_sequence_no_bearish (sl il ap mob : Nat) (bars : List Bar)
    (hchain : List.Chain' (fun a b => a.close < b.close) bars) :
    ∀ ob ∈ (process (initialDetector sl il ap mob) bars).2, ob.bias = .BULLISH := by
  show ∀ ob ∈ (bars.foldl processBar (initialDetector sl il ap mob)).detected_order_blocks,
    ob.bias = .BULLISH
  refine foldl_bullish_only bars (initialDetector sl il ap mob) (by simp [initialDetector]) ?_
  show List.Chain' _ ((initialDetector sl il ap mob).bars ++ bars)
  simpa [initialDetector] using hchain

def wRise : List Bar :=
  [⟨0, 0, 2, 1, 1, 0⟩, ⟨1, 0, 3, 2, 2, 0⟩, ⟨2, 0, 4, 3, 3, 0⟩]

/-- Witness for C8 on a three-bar strictly rising sequence. -/
theorem rising_sequence_no_bearish_witness :
    List.Chain' (fun a b => a.close < b.close) wRise ∧
    ∀ ob ∈ (process (initialDetector 5 4 200 100) wRise).2, ob.bias = .BULLISH :=
  ⟨by norm_num [wRise, List.chain'_cons],
    rising_sequence_no_bearish 5 4 200 100 wRise
      (by norm_num [wRise, List.chain'_cons])⟩

/-! ### Mitigation bookkeeping (claim C5) -/

/-- Reachable-state shape of the active containers: every entry points at an
existing block of its own scope that is not yet mitigated. -/
def ActiveInv (d : Detector) : Prop :=
  (∀ i ∈ d.internal_order_blocks, i < d.detected_order_blocks.length ∧
    (d.detected_order_blocks.getD i dOB).mitigated = false ∧
    (d.detected_order_blocks.getD i dOB).internal = true) ∧
  (∀ i ∈ d.swing_order_blocks, i < d.detected_order_blocks.length ∧
    (d.detected_order_blocks.getD i dOB).mitigated = false ∧
    (d.detected_order_blocks.getD i dOB).internal = false)

lemma activeInv_congr {d e : Detector}
    (hdet : e.detected_order_blocks = d.detected_order_blocks)
    (hi : e.internal_order_blocks = d.internal_order_blocks)
    (hs : e.swing_order_blocks = d.swing_order_blocks)
    (h : ActiveInv d) : ActiveInv e := by
  unfold ActiveInv at h ⊢
  rw [hdet, hi, hs]
  exact h

lemma activeInv_display (e : Detector) (flag : Bool) (h : ActiveInv e) :
    ActiveInv (displayStructure e flag) := by
  obtain ⟨news, hs, _⟩ := displayStructure_step e flag
  obtain ⟨hdet, hprops, hmi, hms, hli, hls, hb, hph, hpl, hm, hsw, hin⟩ := hs
  have hkeep : ∀ i, i < e.detected_order_blocks.length →
      (displayStructure e flag).detected_order_blocks.getD i dOB =
        e.detected_order_blocks.getD i dOB := by
    intro i hi'
    rw [hdet]
    exact getD_append_left _ _ _ _ hi'
  have hfresh : ∀ i, e.detected_order_blocks.length ≤ i →
      i < e.detected_order_blocks.length + news.length →
      (displayStructure e flag).detected_order_blocks.getD i dOB ∈ news := by
    intro i h1 h2
    rw [hdet, getD_append_right _ _ _ _ h1]
    exact getD_mem _ _ _ (by omega)
  have hlen : (displayStructure e flag).detected_order_blocks.length =
      e.detected_order_blocks.length + news.length := by
    rw [hdet, List.length_append]
  cases flag with
  | true =>
      constructor
      · intro i hmem
        rcases hmi i hmem with hold' | ⟨h1, h2⟩
        · obtain ⟨g1, g2, g3⟩ := h.1 i hold'
          rw [hkeep i g1]
          exact ⟨by omega, g2, g3⟩
        · have hm' := hfresh i h1 h2
          obtain ⟨p1, p2, _⟩ := hprops _ hm'
          exact ⟨by omega, p2, p1⟩
      · intro i hmem
        rw [hsw rfl] at hmem
        obtain ⟨g1, g2, g3⟩ := h.2 i hmem
        rw [hkeep i g1]
        exact ⟨by omega, g2, g3⟩
  | false =>
      constructor
      · intro i hmem
        rw [hin rfl] at hmem
        obtain ⟨g1, g2, g3⟩ := h.1 i hmem
        rw [hkeep i g1]
        exact ⟨by omega, g2, g3⟩
      · intro i hmem
        rcases hms i hmem with hold' | ⟨h1, h2⟩
        · obtain ⟨g1, g2, g3⟩ := h.2 i hold'
          rw [hkeep i g1]
          exact ⟨by omega, g2, g3⟩
        · have hm' := hfresh i h1 h2
          obtain ⟨p1, p2, _⟩ := hprops _ hm'
          exact ⟨by omega, p2, p1⟩

lemma activeInv_delete (e : Detector) (flag : Bool) (h : ActiveInv e) :
    ActiveInv (deleteOrderBlocks e flag) := by
  obtain ⟨hlen, hcont, hfields, hmitig⟩ := deleteOrderBlocks_spec e flag
  have hflagkeep : ∀ j : Nat,
      ((deleteOrderBlocks e flag).detected_order_blocks.getD j dOB).internal =
        (e.detected_order_blocks.getD j dOB).internal :=
    fun j => (hfields j).2.2.2.2.2.2
  cases flag with
  | true =>
      simp only [if_true] at hcont hmitig
      constructor
      · intro i hmem
        rw [hcont] at hmem
        obtain ⟨hcs, hncond⟩ := List.mem_filter.mp hmem
        obtain ⟨g1, g2, g3⟩ := h.1 i hcs
        refine ⟨by omega, ?_, by rw [hflagkeep i]; exact g3⟩
        have hcondf : mitigCond (e.detected_order_blocks.getD i dOB)
            (e.bars.getD (e.bars.length - 1) dBar) = false := by
          cases hc : mitigCond (e.detected_order_blocks.getD i dOB)
              (e.bars.getD (e.bars.length - 1) dBar)
          · rfl
          · rw [hc] at hncond
            cases hncond
        cases hres : ((deleteOrderBlocks e true).detected_order_blocks.getD i
            dOB).mitigated
        · rfl
        · rcases (hmitig i).mp hres with hx | ⟨_, hx, _⟩
          · rw [g2] at hx
            cases hx
          · rw [hcondf] at hx
            cases hx
      · intro i hmem
        rw [(deleteOrderBlocks_other_container e).1] at hmem
        obtain ⟨g1, g2, g3⟩ := h.2 i hmem
        refine ⟨by omega, ?_, by rw [hflagkeep i]; exact g3⟩
        cases hres : ((deleteOrderBlocks e true).detected_order_blocks.getD i
            dOB).mitigated
        · rfl
        · rcases (hmitig i).mp hres with hx | ⟨hcs, _, _⟩
          · rw [g2] at hx
            cases hx
          · have := (h.1 i hcs).2.2
            rw [g3] at this
            cases this
  | false =>
      simp only [Bool.false_eq_true, if_false] at hcont hmitig
      constructor
      · intro i hmem
        rw [(deleteOrderBlocks_other_container e).2] at hmem
        obtain ⟨g1, g2, g3⟩ := h.1 i hmem
        refine ⟨by omega, ?_, by rw [hflagkeep i]; exact g3⟩
        cases hres : ((deleteOrderBlocks e false).detected_order_blocks.getD i
            dOB).mitigated
        · rfl
        · rcases (hmitig i).mp hres with hx | ⟨hcs, _, _⟩
          · rw [g2] at hx
            cases hx
          · have := (h.2 i hcs).2.2
            rw [g3] at this
            cases this
      · intro i hmem
        rw [hcont] at hmem
        obtain ⟨hcs, hncond⟩ := List.mem_filter.mp hmem
        obtain ⟨g1, g2, g3⟩ := h.2 i hcs
        refine ⟨by omega, ?_, by rw [hflagkeep i]; exact g3⟩
        have hcondf : mitigCond (e.detected_order_blocks.getD i dOB)
            (e.bars.getD (e.bars.length - 1) dBar) = false := by
          cases hc : mitigCond (e.detected_order_blocks.getD i dOB)
              (e.bars.getD (e.bars.length - 1) dBar)
          · rfl
          · rw [hc] at hncond
            cases hncond
        cases hres : ((deleteOrderBlocks e false).detected_order_blocks.getD i
            dOB).mitigated
        · rfl
        · rcases (hmitig i).mp hres with hx | ⟨_, hx, _⟩
          · rw [g2] at hx
            cases hx
          · rw [hcondf] at hx
            cases hx

/-- The state of the detector after breakout processing of the current bar,
just before the mitigation sweeps (`_process_bar` up to and including the
two `_display_structure` calls). -/
def breakoutState (d : Detector) (bar : Bar) : Detector :=
  displayStructure (displayStructure (updateStructure (updateStructure
    (appendBar d bar) (appendBar d bar).swing_length false)
    (updateStructure (appendBar d bar) (appendBar d bar).swing_length
      false).internal_length true) true) false

lemma processBar_eq (d : Detector) (bar : Bar) :
    processBar d bar =
      deleteOrderBlocks (deleteOrderBlocks (breakoutState d bar) true) false := rfl

lemma breakoutState_bars (d : Detector) (bar : Bar) :
    (breakoutState d bar).bars = d.bars ++ [bar] := by
  rw [breakoutState, displayStructure_bars, displayStructure_bars,
    updateStructure_bars, updateStructure_bars]
  exact (appendBar_frame d bar).1

lemma breakoutState_current_bar (d : Detector) (bar : Bar) :
    (breakoutState d bar).bars.getD ((breakoutState d bar).bars.length - 1) dBar =
      bar := by
  rw [breakoutState_bars, List.length_append, List.length_singleton]
  rw [getD_append_right _ _ _ _ (by omega)]
  simp

lemma activeInv_breakout (d : Detector) (bar : Bar) (h : ActiveInv d) :
    ActiveInv (breakoutState d bar) := by
  have h1 : ActiveInv (appendBar d bar) :=
    activeInv_congr (appendBar_frame d bar).2.1 (appendBar_frame d bar).2.2.1
      (appendBar_frame d bar).2.2.2.1 h
  have h2 : ActiveInv (updateStructure (appendBar d bar)
      (appendBar d bar).swing_length false) :=
    activeInv_congr (updateStructure_detected_order_blocks _ _ _)
      (updateStructure_internal_order_blocks _ _ _)
      (updateStructure_swing_order_blocks _ _ _) h1
  have h3 : ActiveInv (updateStructure (updateStructure (appendBar d bar)
      (appendBar d bar).swing_length false)
      (updateStructure (appendBar d bar) (appendBar d bar).swing_length
        false).internal_length true) :=
    activeInv_congr (updateStructure_detected_order_blocks _ _ _)
      (updateStructure_internal_order_blocks _ _ _)
      (updateStructure_swing_order_blocks _ _ _) h2
  exact activeInv_display _ false (activeInv_display _ true h3)

lemma activeInv_processBar (d : Detector) (bar : Bar) (h : ActiveInv d) :
    ActiveInv (processBar d bar) := by
  rw [processBar_eq]
  exact activeInv_delete _ false (activeInv_delete _ true
    (activeInv_breakout d bar h))

/-- A mitigated block that is outside both active containers stays
mitigated and outside through one display stage. -/
lemma display_stable (e : Detector) (flag : Bool) (i : Nat)
    (hlen : i < e.detected_order_blocks.length)
    (hm : (e.detected_order_blocks.getD i dOB).mitigated = true)
    (hni : i ∉ e.internal_order_blocks) (hns : i ∉ e.swing_order_blocks) :
    i < (displayStructure e flag).detected_order_blocks.length ∧
    ((displayStructure e flag).detected_order_blocks.getD i dOB).mitigated = true ∧
    i ∉ (displayStructure e flag).internal_order_blocks ∧
    i ∉ (displayStructure e flag).swing_order_blocks := by
  obtain ⟨news, hs, _⟩ := displayStructure_step e flag
  obtain ⟨hdet, hprops, hmi, hms, hli, hls, hb, hph, hpl, hmx, hsw, hin⟩ := hs
  refine ⟨by rw [hdet, List.length_append]; omega, ?_, ?_, ?_⟩
  · rw [hdet, getD_append_left _ _ _ _ hlen]
    exact hm
  · intro hmem
    rcases hmi i hmem with h' | ⟨h1, _⟩
    · exact hni h'
    · omega
  · intro hmem
    rcases hms i hmem with h' | ⟨h1, _⟩
    · exact hns h'
    · omega

/-- A mitigated block that is outside both active containers stays
mitigated and outside through one mitigation sweep. -/
lemma delete_stable (e : Detector) (flag : Bool) (i : Nat)
    (hlen : i < e.detected_order_blocks.length)
    (hm : (e.detected_order_blocks.getD i dOB).mitigated = true)
    (hni : i ∉ e.internal_order_blocks) (hns : i ∉ e.swing_order_blocks) :
    i < (deleteOrderBlocks e flag).detected_order_blocks.length ∧
    ((deleteOrderBlocks e flag).detected_order_blocks.getD i dOB).mitigated = true ∧
    i ∉ (deleteOrderBlocks e flag).internal_order_blocks ∧
    i ∉ (deleteOrderBlocks e flag).swing_order_blocks := by
  obtain ⟨hlen', hcont, hfields, hmitig⟩ := deleteOrderBlocks_spec e flag
  refine ⟨by omega, (hmitig i).mpr (Or.inl hm), ?_, ?_⟩
  · intro hmem
    cases flag with
    | true =>
        simp only [if_true] at hcont
        rw [hcont] at hmem
        exact hni (List.mem_of_mem_filter hmem)
    | false =>
        rw [(deleteOrderBlocks_other_container e).2] at hmem
        exact hni hmem
  · intro hmem
    cases flag with
    | true =>
        rw [(deleteOrderBlocks_other_container e).1] at hmem
        exact hns hmem
    | false =>
        simp only [Bool.false_eq_true, if_false] at hcont
        rw [hcont] at hmem
        exact hns (List.mem_of_mem_filter hmem)

lemma processBar_stable (d : Detector) (bar : Bar) (i : Nat)
    (hlen : i < d.detected_order_blocks.length)
    (hm : (d.detected_order_blocks.getD i dOB).mitigated = true)
    (hni : i ∉ d.internal_order_blocks) (hns : i ∉ d.swing_order_blocks) :
    i < (processBar d bar).detected_order_blocks.length ∧
    ((processBar d bar).detected_order_blocks.getD i dOB).mitigated = true ∧
    i ∉ (processBar d bar).internal_order_blocks ∧
    i ∉ (processBar d bar).swing_order_blocks := by
  rw [processBar_eq, breakoutState]
  have f1d := (appendBar_frame d bar).2.1
  have f1i := (appendBar_frame d bar).2.2.1
  have f1s := (appendBar_frame d bar).2.2.2.1
  have s1 : i < (appendBar d bar).detected_order_blocks.length ∧
      ((appendBar d bar).detected_order_blocks.getD i dOB).mitigated = true ∧
      i ∉ (appendBar d bar).internal_order_blocks ∧
      i ∉ (appendBar d bar).swing_order_blocks := by
    rw [f1d, f1i, f1s]
    exact ⟨hlen, hm, hni, hns⟩
  have s2 : i < (updateStructure (appendBar d bar) (appendBar d bar).swing_length
        false).detected_order_blocks.length ∧
      ((updateStructure (appendBar d bar) (appendBar d bar).swing_length
        false).detected_order_blocks.getD i dOB).mitigated = true ∧
      i ∉ (updateStructure (appendBar d bar) (appendBar d bar).swing_length
        false).internal_order_blocks ∧
      i ∉ (updateStructure (appendBar d bar) (appendBar d bar).swing_length
        false).swing_order_blocks := by
    rw [updateStructure_detected_order_blocks,
      updateStructure_internal_order_blocks, updateStructure_swing_order_blocks]
    exact s1
  have s3 : i < (updateStructure (updateStructure (appendBar d bar)
        (appendBar d bar).swing_length false)
        (updateStructure (appendBar d bar) (appendBar d bar).swing_length
          false).internal_length true).detected_order_blocks.length ∧
      ((updateStructure (updateStructure (appendBar d bar)
        (appendBar d bar).swing_length false)
        (updateStructure (appendBar d bar) (appendBar d bar).swing_length
          false).internal_length true).detected_order_blocks.getD i dOB).mitigated
        = true ∧
      i ∉ (updateStructure (updateStructure (appendBar d bar)
        (appendBar d bar).swing_length false)
        (updateStructure (appendBar d bar) (appendBar d bar).swing_length
          false).internal_length true).internal_order_blocks ∧
      i ∉ (updateStructure (updateStructure (appendBar d bar)
        (appendBar d bar).swing_length false)
        (updateStructure (appendBar d bar) (appendBar d bar).swing_length
          false).internal_length true).swing_order_blocks := by
    rw [updateStructure_detected_order_blocks,
      updateStructure_internal_order_blocks, updateStructure_swing_order_blocks]
    exact s2
  obtain ⟨t1, t2, t3, t4⟩ := s3
  obtain ⟨u1, u2, u3, u4⟩ := display_stable _ true i t1 t2 t3 t4
  obtain ⟨v1, v2, v3, v4⟩ := display_stable _ false i u1 u2 u3 u4
  obtain ⟨w1, w2, w3, w4⟩ := delete_stable _ true i v1 v2 v3 v4
  exact delete_stable _ false i w1 w2 w3 w4

lemma foldl_stable (bs : List Bar) : ∀ (e : Detector) (i : Nat),
    i < e.detected_order_blocks.length →
    (e.detected_order_blocks.getD i dOB).mitigated = true →
    i ∉ e.internal_order_blocks → i ∉ e.swing_order_blocks →
    i < (bs.foldl processBar e).detected_order_blocks.length ∧
    ((bs.foldl processBar e).detected_order_blocks.getD i dOB).mitigated = true ∧
    i ∉ (bs.foldl processBar e).internal_order_blocks ∧
    i ∉ (bs.foldl processBar e).swing_order_blocks := by
  induction bs with
  | nil =>
      intro e i h1 h2 h3 h4
      exact ⟨h1, h2, h3, h4⟩
  | cons b rest ih =>
      intro e i h1 h2 h3 h4
      rw [List.foldl_cons]
      obtain ⟨g1, g2, g3, g4⟩ := processBar_stable e b i h1 h2 h3 h4
      exact ih (processBar e b) i g1 g2 g3 g4

/-- C5: the mitigation sweeps run once per bar on both active containers
after breakout processing, against the raw extremes of the current bar
(`mitigCond`: a bullish block is hit when `bar.low < block.low`, a bearish
one when `bar.high > block.high`); an active block survives exactly when
its condition is false, a hit block is flagged in the permanent record and
removed from its container, the container invariant (active blocks are
never mitigated) is preserved, and a mitigated block outside the
containers stays mitigated and outside for the whole remaining run. -/
theorem mitigation_exact_and_monotone (d : Detector) (bar : Bar) (bs : List Bar)
    (h : ActiveInv d) :
    processBar d bar =
      deleteOrderBlocks (deleteOrderBlocks (breakoutState d bar) true) false ∧
    (breakoutState d bar).bars.getD ((breakoutState d bar).bars.length - 1) dBar
      = bar ∧
    (∀ i ∈ (breakoutState d bar).internal_order_blocks,
      (i ∈ (processBar d bar).internal_order_blocks ↔
        mitigCond ((breakoutState d bar).detected_order_blocks.getD i dOB) bar
          = false) ∧
      (mitigCond ((breakoutState d bar).detected_order_blocks.getD i dOB) bar
          = true →
        ((processBar d bar).detected_order_blocks.getD i dOB).mitigated = true ∧
        i ∉ (processBar d bar).internal_order_blocks)) ∧
    (∀ i ∈ (breakoutState d bar).swing_order_blocks,
      (i ∈ (processBar d bar).swing_order_blocks ↔
        mitigCond ((breakoutState d bar).detected_order_blocks.getD i dOB) bar
          = false) ∧
      (mitigCond ((breakoutState d bar).detected_order_blocks.getD i dOB) bar
          = true →
        ((processBar d bar).detected_order_blocks.getD i dOB).mitigated = true ∧
        i ∉ (processBar d bar).swing_order_blocks)) ∧
    ActiveInv (processBar d bar) ∧
    (∀ i : Nat, i < d.detected_order_blocks.length →
      (d.detected_order_blocks.getD i dOB).mitigated = true →
      i ∉ d.internal_order_blocks → i ∉ d.swing_order_blocks →
      (((bar :: bs).foldl processBar d).detected_order_blocks.getD i
        dOB).mitigated = true ∧
      i ∉ ((bar :: bs).foldl processBar d).internal_order_blocks ∧
      i ∉ ((bar :: bs).foldl processBar d).swing_order_blocks) := by
  have hE := activeInv_breakout d bar h
  obtain ⟨hlen1, hcont1, hfields1, hmitig1⟩ :=
    deleteOrderBlocks_spec (breakoutState d bar) true
  simp only [if_true] at hcont1
  obtain ⟨hlen2, hcont2, hfields2, hmitig2⟩ :=
    deleteOrderBlocks_spec (deleteOrderBlocks (breakoutState d bar) true) false
  simp only [Bool.false_eq_true, if_false] at hcont2
  have hbarE := breakoutState_current_bar d bar
  have hbar1 : (deleteOrderBlocks (breakoutState d bar) true).bars =
      (breakoutState d bar).bars :=
    (deleteOrderBlocks_frame _ true).1
  have hcondkeep : ∀ j : Nat,
      mitigCond ((deleteOrderBlocks (breakoutState d bar) true).detected_order_blocks.getD
        j dOB) bar =
      mitigCond ((breakoutState d bar).detected_order_blocks.getD j dOB) bar :=
    fun j => mitigCond_congr bar (hfields1 j).2.2.2.2.2.1 (hfields1 j).1
      (hfields1 j).2.1
  refine ⟨processBar_eq d bar, hbarE, ?_, ?_, activeInv_processBar d bar h, ?_⟩
  · intro i hmem
    have hfinal : (processBar d bar).internal_order_blocks =
        (breakoutState d bar).internal_order_blocks.filter
          (fun idx => ! mitigCond
            ((breakoutState d bar).detected_order_blocks.getD idx dOB) bar) := by
      rw [processBar_eq, (deleteOrderBlocks_other_container _).2, hcont1, hbarE]
    constructor
    · rw [hfinal, List.mem_filter]
      constructor
      · intro ⟨_, hx⟩
        cases hc : mitigCond
            ((breakoutState d bar).detected_order_blocks.getD i dOB) bar
        · rfl
        · rw [hc] at hx
          cases hx
      · intro hc
        exact ⟨hmem, by rw [hc]; rfl⟩
    · intro hc
      have hlt : i < (breakoutState d bar).detected_order_blocks.length :=
        (hE.1 i hmem).1
      constructor
      · rw [processBar_eq]
        refine (hmitig2 i).mpr (Or.inl ?_)
        refine (hmitig1 i).mpr (Or.inr ⟨hmem, ?_, hlt⟩)
        rw [hbarE]
        exact hc
      · rw [hfinal, List.mem_filter]
        rintro ⟨_, hx⟩
        rw [hc] at hx
        cases hx
  · intro i hmem
    have hswing1 : (deleteOrderBlocks (breakoutState d bar) true).swing_order_blocks =
        (breakoutState d bar).swing_order_blocks :=
      (deleteOrderBlocks_other_container _).1
    have hfinal : (processBar d bar).swing_order_blocks =
        (breakoutState d bar).swing_order_blocks.filter
          (fun idx => ! mitigCond
            ((breakoutState d bar).detected_order_blocks.getD idx dOB) bar) := by
      rw [processBar_eq, hcont2, hswing1, hbar1, hbarE]
      exact List.filter_congr fun j _ => by rw [hcondkeep j]
    constructor
    · rw [hfinal, List.mem_filter]
      constructor
      · intro ⟨_, hx⟩
        cases hc : mitigCond
            ((breakoutState d bar).detected_order_blocks.getD i dOB) bar
        · rfl
        · rw [hc] at hx
          cases hx
      · intro hc
        exact ⟨hmem, by rw [hc]; rfl⟩
    · intro hc
      have hlt : i < (breakoutState d bar).detected_order_blocks.length :=
        (hE.2 i hmem).1
      constructor
      · rw [processBar_eq]
        refine (hmitig2 i).mpr (Or.inr ⟨?_, ?_, ?_⟩)
        · rw [hswing1]
          exact hmem
        · rw [hbar1, hbarE, hcondkeep i]
          exact hc
        · omega
      · rw [hfinal, List.mem_filter]
        rintro ⟨_, hx⟩
        rw [hc] at hx
        cases hx
  · intro i h1 h2 h3 h4
    rw [List.foldl_cons]
    obtain ⟨g1, g2, g3, g4⟩ := processBar_stable d bar i h1 h2 h3 h4
    exact (foldl_stable bs (processBar d bar) i g1 g2 g3 g4).2

/-- Witness for C5 on a fresh detector (both containers empty) and one bar. -/
theorem mitigation_exact_and_monotone_witness :
    ActiveInv (initialDetector 5 4 200 100) ∧
    processBar (initialDetector 5 4 200 100) wBarA =
      deleteOrderBlocks (deleteOrderBlocks
        (breakoutState (initialDetector 5 4 200 100) wBarA) true) false :=
  ⟨⟨by simp [initialDetector], by simp [initialDetector]⟩,
    (mitigation_exact_and_monotone (initialDetector 5 4 200 100) wBarA []
      ⟨by simp [initialDetector], by simp [initialDetector]⟩).1⟩

/-! ### Where a block's extremes come from (claim C1) -/

/-- The block's extremes are the bar's raw extremes, either in order or
swapped (the high-volatility parse). -/
def ExtremesPair (ob : OrderBlock) (b : Bar) : Prop :=
  (ob.high = b.high ∧ ob.low = b.low) ∨ (ob.high = b.low ∧ ob.low = b.high)

/-- Parsed arrays are index-aligned with the bars and hold each bar's raw
extremes up to the volatility swap; every detected block's extremes come
from some ingested bar. -/
def PairInv (d : Detector) : Prop :=
  d.parsed_highs.length = d.bars.length ∧
  d.parsed_lows.length = d.bars.length ∧
  (∀ j, j < d.bars.length →
    (d.parsed_highs.getD j 0 = (d.bars.getD j dBar).high ∧
      d.parsed_lows.getD j 0 = (d.bars.getD j dBar).low) ∨
    (d.parsed_highs.getD j 0 = (d.bars.getD j dBar).low ∧
      d.parsed_lows.getD j 0 = (d.bars.getD j dBar).high)) ∧
  (∀ ob ∈ d.detected_order_blocks, ∃ b ∈ d.bars, ExtremesPair ob b)

lemma pairInv_append (d : Detector) (bar : Bar) (h : PairInv d) :
    PairInv (appendBar d bar) := by
  obtain ⟨hph, hpl, hidx, hdet⟩ := h
  have hbars : (appendBar d bar).bars = d.bars ++ [bar] := (appendBar_frame d bar).1
  refine ⟨?_, ?_, ?_, ?_⟩
  · rw [hbars, appendBar_parsed_highs_len, List.length_append]
    simp [hph]
  · rw [hbars, appendBar_parsed_lows_len, List.length_append]
    simp [hpl]
  · intro j hj
    rw [hbars, List.length_append, List.length_singleton] at hj
    by_cases hjl : j < d.bars.length
    · have e1 : (appendBar d bar).parsed_highs.getD j 0 =
          d.parsed_highs.getD j 0 := by
        show (d.parsed_highs ++ [_]).getD j 0 = _
        exact getD_append_left _ _ _ _ (by omega)
      have e2 : (appendBar d bar).parsed_lows.getD j 0 =
          d.parsed_lows.getD j 0 := by
        show (d.parsed_lows ++ [_]).getD j 0 = _
        exact getD_append_left _ _ _ _ (by omega)
      have e3 : (appendBar d bar).bars.getD j dBar = d.bars.getD j dBar := by
        rw [hbars]
        exact getD_append_left _ _ _ _ hjl
      rw [e1, e2, e3]
      exact hidx j hjl
    · have hje : j = d.bars.length := by omega
      subst hje
      have e3 : (appendBar d bar).bars.getD d.bars.length dBar = bar := by
        rw [hbars, getD_append_right _ _ _ _ (by omega)]
        simp
      have hsw : ((appendBar d bar).parsed_highs.getD d.bars.length 0 = bar.low ∧
            (appendBar d bar).parsed_lows.getD d.bars.length 0 = bar.high) ∨
          ((appendBar d bar).parsed_highs.getD d.bars.length 0 = bar.high ∧
            (appendBar d bar).parsed_lows.getD d.bars.length 0 = bar.low) := by
        show ((d.parsed_highs ++ [_]).getD d.bars.length 0 = bar.low ∧
            (d.parsed_lows ++ [_]).getD d.bars.length 0 = bar.high) ∨
          ((d.parsed_highs ++ [_]).getD d.bars.length 0 = bar.high ∧
            (d.parsed_lows ++ [_]).getD d.bars.length 0 = bar.low)
        rw [getD_append_right _ _ _ _ (by omega),
          getD_append_right _ _ _ _ (by omega), hph, hpl, Nat.sub_self]
        simp only [List.getD_cons_zero]
        split
        · left
          exact ⟨rfl, rfl⟩
        · right
          exact ⟨rfl, rfl⟩
      rw [e3]
      rcases hsw with ⟨x1, x2⟩ | ⟨x1, x2⟩
      · right
        exact ⟨x1, x2⟩
      · left
        exact ⟨x1, x2⟩
  · intro ob hob
    have : ob ∈ d.detected_order_blocks := hob
    obtain ⟨b, hb, hp⟩ := hdet ob this
    exact ⟨b, by rw [hbars]; exact List.mem_append_left _ hb, hp⟩

lemma pairInv_congr {d e : Detector}
    (hb : e.bars = d.bars) (hph : e.parsed_highs = d.parsed_highs)
    (hpl : e.parsed_lows = d.parsed_lows)
    (hdet : e.detected_order_blocks = d.detected_order_blocks)
    (h : PairInv d) : PairInv e := by
  unfold PairInv at h ⊢
  rw [hb, hph, hpl, hdet]
  exact h

lemma pairInv_display (e : Detector) (flag : Bool) (h : PairInv e) :
    PairInv (displayStructure e flag) := by
  obtain ⟨hph, hpl, hidx, hdet⟩ := h
  obtain ⟨news, hs, _⟩ := displayStructure_step e flag
  obtain ⟨hd, hprops, _, _, _, _, hb, hh, hl, _, _, _⟩ := hs
  refine ⟨by rw [hh, hb]; exact hph, by rw [hl, hb]; exact hpl, ?_, ?_⟩
  · intro j hj
    rw [hb] at hj
    rw [hh, hl, hb]
    exact hidx j hj
  · intro ob hob
    rw [hd] at hob
    rcases List.mem_append.mp hob with hold | hnew
    · obtain ⟨b, hbm, hp⟩ := hdet ob hold
      exact ⟨b, by rw [hb]; exact hbm, hp⟩
    · obtain ⟨_, _, pos, hpos, hobh, hobl⟩ := hprops ob hnew
      refine ⟨e.bars.getD pos dBar, by rw [hb]; exact getD_mem _ _ _ hpos, ?_⟩
      rcases hidx pos hpos with ⟨x1, x2⟩ | ⟨x1, x2⟩
      · left
        rw [hobh, hobl, x1, x2]
        exact ⟨rfl, rfl⟩
      · right
        rw [hobh, hobl, x1, x2]
        exact ⟨rfl, rfl⟩

lemma pairInv_delete (e : Detector) (flag : Bool) (h : PairInv e) :
    PairInv (deleteOrderBlocks e flag) := by
  obtain ⟨hph, hpl, hidx, hdet⟩ := h
  obtain ⟨hlen, _, hfields, _⟩ := deleteOrderBlocks_spec e flag
  have hb := (deleteOrderBlocks_frame e flag).1
  have hh := (deleteOrderBlocks_frame e flag).2.1
  have hl := (deleteOrderBlocks_frame e flag).2.2.1
  refine ⟨by rw [hh, hb]; exact hph, by rw [hl, hb]; exact hpl, ?_, ?_⟩
  · intro j hj
    rw [hb] at hj
    rw [hh, hl, hb]
    exact hidx j hj
  · intro ob hob
    obtain ⟨j, hj, hEq⟩ := mem_getD _ dOB ob hob
    have hjlen : j < e.detected_order_blocks.length := by omega
    obtain ⟨b, hbm, hp⟩ := hdet (e.detected_order_blocks.getD j dOB)
      (getD_mem _ _ _ hjlen)
    refine ⟨b, by rw [hb]; exact hbm, ?_⟩
    have e1 := (hfields j).1
    have e2 := (hfields j).2.1
    rw [hEq] at e1 e2
    unfold ExtremesPair at hp ⊢
    rw [e1, e2]
    exact hp

lemma pairInv_processBar (d : Detector) (bar : Bar) (h : PairInv d) :
    PairInv (processBar d bar) := by
  rw [processBar_eq, breakoutState]
  have h1 := pairInv_append d bar h
  have h2 : PairInv (updateStructure (appendBar d bar)
      (appendBar d bar).swing_length false) :=
    pairInv_congr (updateStructure_bars _ _ _) (updateStructure_parsed_highs _ _ _)
      (updateStructure_parsed_lows _ _ _)
      (updateStructure_detected_order_blocks _ _ _) h1
  have h3 : PairInv (updateStructure (updateStructure (appendBar d bar)
      (appendBar d bar).swing_length false)
      (updateStructure (appendBar d bar) (appendBar d bar).swing_length
        false).internal_length true) :=
    pairInv_congr (updateStructure_bars _ _ _) (updateStructure_parsed_highs _ _ _)
      (updateStructure_parsed_lows _ _ _)
      (updateStructure_detected_order_blocks _ _ _) h2
  exact pairInv_delete _ false (pairInv_delete _ true
    (pairInv_display _ false (pairInv_display _ true h3)))

lemma foldl_bars (bs : List Bar) : ∀ e : Detector,
    (bs.foldl processBar e).bars = e.bars ++ bs := by
  induction bs with
  | nil => intro e; simp
  | cons b rest ih =>
      intro e
      rw [List.foldl_cons, ih (processBar e b), processBar_bars,
        List.append_assoc]
      rfl

def barsC1 : List Bar :=
  [⟨0, 0, 11, 9, 10, 0⟩, ⟨1, 0, 11, 7, 10, 0⟩, ⟨2, 0, 11, 9, 10, 0⟩,
   ⟨3, 0, 11, 9, 10, 0⟩, ⟨4, 0, 100, 50, 60, 0⟩, ⟨5, 0, 11, 9, 6, 0⟩]

set_option maxRecDepth 100000 in
/-- C1 is false on the code: on this well-formed bar sequence the single
emitted order block originates from a high-volatility (swapped) bar and has
`high = 50 < 100 = low`. -/
theorem order_block_high_low_counterexample :
    (∀ b ∈ barsC1, b.low ≤ b.high) ∧
    (process (initialDetector 10 2 200 100) barsC1).2.length = 1 ∧
    ((process (initialDetector 10 2 200 100) barsC1).2.getD 0 dOB).high <
      ((process (initialDetector 10 2 200 100) barsC1).2.getD 0 dOB).low := by
  with_unfolding_all decide

/-- C1 amended: every emitted block's `(high, low)` pair is the raw
`(high, low)` pair of some input bar — in order, or swapped exactly when the
origin bar was parsed as high-volatility — so `high ≥ low` is guaranteed
only for blocks whose origin bar was not swapped. -/
theorem order_block_extremes_from_some_bar (sl il ap mob : Nat)
    (bars : List Bar) (ob : OrderBlock)
    (hmem : ob ∈ (process (initialDetector sl il ap mob) bars).2) :
    ∃ b ∈ bars, (ob.high = b.high ∧ ob.low = b.low) ∨
      (ob.high = b.low ∧ ob.low = b.high) := by
  have hbase : PairInv (initialDetector sl il ap mob) := by
    refine ⟨rfl, rfl, ?_, ?_⟩
    · intro j hj
      simp [initialDetector] at hj
    · intro ob hob
      simp [initialDetector] at hob
  have hinv : PairInv (bars.foldl processBar (initialDetector sl il ap mob)) := by
    clear hmem
    generalize initialDetector sl il ap mob = e at hbase ⊢
    induction bars generalizing e with
    | nil => exact hbase
    | cons b rest ih =>
        rw [List.foldl_cons]
        exact ih (processBar e b) (pairInv_processBar e b hbase)
  obtain ⟨b, hbm, hp⟩ := hinv.2.2.2 ob hmem
  rw [foldl_bars] at hbm
  simp only [initialDetector, List.nil_append] at hbm
  exact ⟨b, hbm, hp⟩

set_option maxRecDepth 100000 in
/-- Witness for the amended C1 at the counterexample run. -/
theorem order_block_extremes_from_some_bar_witness :
    ((process (initialDetector 10 2 200 100) barsC1).2.getD 0 dOB ∈
      (process (initialDetector 10 2 200 100) barsC1).2) ∧
    ∃ b ∈ barsC1,
      (((process (initialDetector 10 2 200 100) barsC1).2.getD 0 dOB).high =
          b.high ∧
        ((process (initialDetector 10 2 200 100) barsC1).2.getD 0 dOB).low =
          b.low) ∨
      (((process (initialDetector 10 2 200 100) barsC1).2.getD 0 dOB).high =
          b.low ∧
        ((process (initialDetector 10 2 200 100) barsC1).2.getD 0 dOB).low =
          b.high) :=
  ⟨by with_unfolding_all decide,
    order_block_extremes_from_some_bar 10 2 200 100 barsC1 _
      (by with_unfolding_all decide)⟩

/-! ### Same-bar mitigation (claim C10) -/

def barsC10 : List Bar :=
  [⟨0, 0, 11, 9, 10, 0⟩, ⟨1, 0, 11, 7, 10, 0⟩, ⟨2, 0, 11, 9, 10, 0⟩,
   ⟨3, 0, 11, 9, 10, 0⟩, ⟨4, 0, 100, 5, 6, 0⟩]

set_option maxRecDepth 400000 in
/-- C10: within a bar step the two mitigation sweeps run after breakout
handling, on the state that already contains any block created on this very
bar; consequently, on this concrete input the single order block is created
at bar `t = 4` and is flagged mitigated on that same bar (its huge raw high
breaches the fresh bearish block), and it is never in any active container
after any processed prefix. -/
theorem same_bar_mitigation :
    (∀ (d : Detector) (bar : Bar),
      processBar d bar =
        deleteOrderBlocks (deleteOrderBlocks (breakoutState d bar) true) false) ∧
    (process (initialDetector 10 2 200 100) barsC10).2.length = 1 ∧
    ((process (initialDetector 10 2 200 100) barsC10).2.getD 0 dOB).mitigated
      = true ∧
    ((process (initialDetector 10 2 200 100) barsC10).2.getD 0 dOB).created_time
      = 4 ∧
    (barsC10.getD 4 dBar).timestamp = 4 ∧
    (∀ k, k ≤ 5 →
      ((barsC10.take k).foldl processBar
        (initialDetector 10 2 200 100)).internal_order_blocks = [] ∧
      ((barsC10.take k).foldl processBar
        (initialDetector 10 2 200 100)).swing_order_blocks = []) := by
  refine ⟨fun d bar => processBar_eq d bar, ?_⟩
  with_unfolding_all decide
